import Mathlib

/-!
Verification development for the polyplug module (src/polyplug.py).

The module is embedded shallowly:

* Strings scanned by the hand-written HTML tokenizer are represented as
  `List Char` (the Python tokenizer's one-character lookahead cursor is the
  head of the list; end of input is the empty list, on which the Python
  cursor's `char` is the empty string `""`).
* Python's ordered `dict` is represented as an ordered association list
  `List (String × String)` (for attributes) or `List (String × V)` with
  unique keys; `dict[k] = v` keeps the original position of an existing key.
* DOM nodes and their JSON-serializable wire records are represented by the
  mutual inductive `NRec`/`NRecs`.  An `ElementNode` object of the source
  stores its children as wire records inside `_node["childNodes"]`, so a
  node object is observationally the record it wraps; accessor functions
  (`childNodesR`, `elemValue`, `outerHTML`, …) model the corresponding
  Python properties.
* Python character predicates `str.isalpha` / `str.isdigit` / `str.isspace`
  are modelled by their ASCII restrictions (the repository only ever feeds
  them ASCII markup).
* The external `hashlib.sha256` used for listener fingerprints is an
  opaque pure function of its input string, so the definitions that use it
  take an arbitrary `hash : String → String` parameter.
* The external `json` module is modelled by an abstract decode result
  (`Except String JVal`): `json.loads` either fails with a decode error or
  produces a JSON value.
-/

namespace Polyplug

/-! ## Character classes used by the tokenizer -/

/-- ASCII model of Python `str.isspace` for a single character. -/
def pySpace (c : Char) : Bool :=
  c = ' ' || c = '\t' || c = '\n' || c = '\r' || c = '\x0b' || c = '\x0c'

/-- Characters allowed in a tag or attribute name by `get_name`:
`c.isalpha() or c.isdigit() or c in "_-."`. -/
def nameChar (c : Char) : Bool :=
  c.isAlpha || c.isDigit || c = '_' || c = '-' || c = '.'

/-- Characters allowed in an attribute value by `get_value`:
`c.isalpha() or c.isdigit() or c in "_-. ;:!"`. -/
def valueChar (c : Char) : Bool :=
  c.isAlpha || c.isDigit || c = '_' || c = '-' || c = '.' || c = ' ' ||
  c = ';' || c = ':' || c = '!'

/-- The two quote characters of `HTMLTokenizer.QUOTES`. -/
def quoteChar (c : Char) : Bool :=
  c = '"' || c = '\''

/-! ## Tokenizer cursor primitives

The Python tokenizer keeps `self.char` (current character, `""` at EOF) and
a forward position.  We model the cursor state as the list of remaining
characters, the head being `self.char`.

A crucial Python quirk is preserved: `self.char in expected` is `True`
when `self.char == ""` (the empty string is a substring of every string),
so `match`/`expect` succeed vacuously at end of input. -/

/-- Model of `HTMLTokenizer.skip_ws`. -/
def skipWs : List Char → List Char
  | [] => []
  | c :: cs => if pySpace c then skipWs cs else c :: cs

/-- Model of `HTMLTokenizer.match`: skip whitespace, then consume the next
character if it belongs to `expected`.  At EOF the Python membership test
`"" in expected` is `True`, so the match succeeds without consuming. -/
def tmatch (expected : List Char) (s : List Char) : Bool × List Char :=
  match skipWs s with
  | [] => (true, [])
  | c :: cs => if c ∈ expected then (true, cs) else (false, c :: cs)

/-- Model of `HTMLTokenizer.expect`: `none` models the raised
`ValueError("Bad HTML syntax.")`; otherwise the advanced cursor. -/
def texpect (expected : List Char) (s : List Char) : Option (List Char) :=
  match tmatch expected s with
  | (true, s') => some s'
  | (false, _) => none

/-- Model of `HTMLTokenizer.get_name`: skip whitespace, then take the
longest run of name characters. -/
def takeName : List Char → List Char × List Char
  | [] => ([], [])
  | c :: cs =>
    if nameChar c then
      let p := takeName cs
      (c :: p.1, p.2)
    else ([], c :: cs)

/-- The name returned by `get_name` together with the cursor after it. -/
def getName (s : List Char) : String × List Char :=
  let p := takeName (skipWs s)
  (String.mk p.1, p.2)

/-- The value-character loop inside `get_value`.  At end of input the
Python loop never terminates (`"" in "_-. ;:!"` is `True` and
`get_char()` returns `""` forever), which `none` models. -/
def takeValueChars : List Char → Option (List Char × List Char)
  | [] => none
  | c :: cs =>
    if valueChar c then
      match takeValueChars cs with
      | none => none
      | some p => some (c :: p.1, p.2)
    else some ([], c :: cs)

/-- Model of `HTMLTokenizer.get_value`.  `none` models non-termination;
`some (v, s')` is the returned value and the cursor after it.  A failing
`expect` inside the `try` block is swallowed and yields `""` with the
cursor wherever the failure left it. -/
def getValue (s : List Char) : Option (String × List Char) :=
  match tmatch ['='] (skipWs s) with
  | (false, s1) => some ("", s1)
  | (true, s1) =>
    match tmatch ['"', '\''] s1 with
    | (false, s2) => some ("", s2)
    | (true, s2) =>
      match takeValueChars s2 with
      | none => none
      | some (v, s3) =>
        match tmatch ['"', '\''] s3 with
        | (true, s4) => some (String.mk v, s4)
        | (false, s4) => some ("", s4)

/-- Ordered-dict insertion used by `Attributes.__setitem__` via
`attrs[name] = value`: replace in place when the key exists, else append. -/
def dictSet {V : Type} (l : List (String × V)) (k : String) (v : V) :
    List (String × V) :=
  match l with
  | [] => [(k, v)]
  | (k', v') :: t => if k' = k then (k, v) :: t else (k', v') :: dictSet t k v

/-- Attribute collections: the ordered string-to-string mapping of the
`Attributes` class. -/
abbrev Attrs := List (String × String)

/-- The `while name:` loop of `get_attrs`.  The fuel only bounds the number
of attribute pairs (each real iteration consumes at least one input
character, so `s.length + 1` is always enough); `none` propagates the
non-termination of `get_value` at end of input. -/
def getAttrsLoop : Nat → Attrs → List Char → Option (Attrs × List Char)
  | 0, _, _ => none
  | fuel + 1, acc, s =>
    match getName s with
    | (n, s1) =>
      if n = "" then some (acc, s1)
      else
        match getValue s1 with
        | none => none
        | some (v, s2) => getAttrsLoop fuel (dictSet acc n v) s2

/-- Model of `HTMLTokenizer.get_attrs`. -/
def getAttrs (s : List Char) : Option (Attrs × List Char) :=
  getAttrsLoop (s.length + 1) [] s

/-- Boolean "u is a prefix of s" on raw character lists. -/
def isPre : List Char → List Char → Bool
  | [], _ => true
  | _ :: _, [] => false
  | u :: us, c :: cs => u = c && isPre us cs

/-- Split the input at the first position where `u` starts: the consumed
text before the first occurrence of `u`, and the rest of the input
beginning with that occurrence (or `[]` if `u` never occurs). -/
def splitUntil (u : List Char) : List Char → List Char × List Char
  | [] => ([], [])
  | c :: cs =>
    if isPre u (c :: cs) then ([], c :: cs)
    else
      let p := splitUntil u cs
      (c :: p.1, p.2)

/-- Model of `HTMLTokenizer.get_text`: consume characters until the
accumulated text ends with `until`, then rewind the cursor to the start of
that occurrence and return the text before it; at end of input return
everything consumed.  (The Python position arithmetic
`self.pos -= until_len; if self.char: self.pos -= 1; self.next_char()`
leaves the cursor exactly at the first character of the occurrence.) -/
def getText (u : List Char) (s : List Char) : String × List Char :=
  let p := splitUntil u s
  (String.mk p.1, p.2)

/-- The comment-scanning loop of `tokenize` (`value += self.get_char()`
until `value[-3:] == "-->"`).  It consumes through the terminator; if the
terminator never occurs the Python loop runs forever at end of input,
which `none` models. -/
def scanComment (s : List Char) : Option (String × List Char) :=
  let p := splitUntil ['-', '-', '>'] s
  match p.2 with
  | [] => none
  | rest => some (String.mk p.1, rest.drop 3)

end Polyplug

namespace Polyplug

/-! ## Node wire records

`NRec` is the JSON-serializable wire record of a DOM node (`nodeType`
1 = Element, 3 = Text, 8 = Comment, anything else = Fragment; the source
emits 11 for fragments).  An `elem` record carries the `tagName`, the
`attributes` mapping (the empty list models the key being absent, matching
`kwargs.get("attributes", {})` and `if self.attributes:`), the `childNodes`
sequence and the optional `value` key (present exactly for `textarea`
records).  `txt`/`comment` carry their `nodeValue`.

Since an `ElementNode` object stores its children as wire records in
`_node["childNodes"]`, a node object is observationally the record it was
built from; the accessor functions below model the Python properties. -/

mutual
/-- Wire record of a DOM node; see the section comment. -/
inductive NRec where
  | elem (tagName : String) (attrs : Attrs) (children : NRecs) (value : Option String)
  | txt (nodeValue : String)
  | comment (nodeValue : String)
  | frag
deriving DecidableEq, Repr

/-- A sequence of wire records (the `childNodes` list). -/
inductive NRecs where
  | nil
  | cons (head : NRec) (tail : NRecs)
deriving DecidableEq, Repr
end

/-- Plain-list view of a record sequence. -/
def NRecs.toList : NRecs → List NRec
  | .nil => []
  | .cons c cs => c :: cs.toList

/-- Build a record sequence from a plain list. -/
def NRecs.ofList : List NRec → NRecs
  | [] => .nil
  | c :: cs => .cons c (NRecs.ofList cs)

/-- Model of `ElementNode.childNodes` on the node built from a record:
a `textarea` element has no children (only a text value); otherwise each
stored child record is reconstructed (the reconstruction keeps all the
record's structural fields, so the child objects are identified with their
records here; the parent back-reference injection is modelled separately
below). -/
def childNodesR : NRec → List NRec
  | .elem t _ cs _ => if t = "textarea" then [] else cs.toList
  | _ => []

/-- Model of the `value` attribute of a `textarea` element node:
`kwargs.get("value", "")`. -/
def elemValue : NRec → String
  | .elem _ _ _ v => v.getD ""
  | _ => ""

mutual
/-- Model of `Node.as_dict` for the node built from a record: `canonRec r`
is `ElementNode(**r).as_dict` (resp. `TextNode`, `CommentNode`,
`FragmentNode`).  For an element the source serializes
`[child.as_dict for child in self.childNodes]`, i.e. it reconstructs each
stored child record and re-serializes it, which is this same function
applied recursively; a `textarea` element serializes no children and a
`value` key defaulted from `kwargs.get("value", "")`. -/
def canonRec : NRec → NRec
  | .elem t a cs v =>
      .elem t a (if t = "textarea" then .nil else canonRecs cs)
        (if t = "textarea" then some (v.getD "") else none)
  | .txt s => .txt s
  | .comment s => .comment s
  | .frag => .frag

/-- `canonRec` mapped over a record sequence. -/
def canonRecs : NRecs → NRecs
  | .nil => .nil
  | .cons c cs => .cons (canonRec c) (canonRecs cs)
end

/-! ## HTML rendering (`outerHTML` / `innerHTML`) -/

/-- Attribute rendering inside `ElementNode.outerHTML`:
`" " + attr + '="' + val + '"'` for each pair, in order. -/
def renderAttrs : Attrs → List Char
  | [] => []
  | (n, v) :: t => ' ' :: (n.data ++ '=' :: '"' :: (v.data ++ '"' :: renderAttrs t))

mutual
/-- Model of `Node.outerHTML` (on the node built from a record):
an element renders `<tag attr="val"…>` + (the raw `value` for `textarea`,
else the concatenation of its children's `outerHTML`) + `</tag>`; a text
node renders its `nodeValue` verbatim; a comment renders
`<!--nodeValue-->`; a fragment renders the empty string. -/
def outerHTML : NRec → List Char
  | .elem t a cs v =>
      '<' :: (t.data ++ renderAttrs a ++ '>' ::
        ((if t = "textarea" then (v.getD "").data else innerHTML cs) ++
          '<' :: '/' :: (t.data ++ ['>'])))
  | .txt s => s.data
  | .comment s => '<' :: '!' :: '-' :: '-' :: (s.data ++ ['-', '-', '>'])
  | .frag => []

/-- Concatenated `outerHTML` of a record sequence (the `innerHTML`
getter). -/
def innerHTML : NRecs → List Char
  | .nil => []
  | .cons c cs => outerHTML c ++ innerHTML cs
end

/-- The `innerHTML` getter of an element whose stored child records are
`rs`: concatenation of the reconstructed children's `outerHTML`. -/
def innerHTMLL : List NRec → List Char
  | [] => []
  | r :: rs => outerHTML r ++ innerHTMLL rs

/-! ## The tokenizer state machine (`HTMLTokenizer.tokenize`)

`tokenize` keeps a `current_node` (the innermost not-yet-closed element)
and a `current_parent`; open elements form a chain through their `parent`
references.  The state is modelled as the chain of open frames
(`top` = innermost, then `outer`, the last element of which is the
`parent` argument of `tokenize`) plus a mode describing where
`current_node`/`current_parent` point:

* `noCur`  — `current_node is None`, `current_parent` = `top`;
* `cur`    — `current_node` = `top`, `current_parent` = head of `outer`;
* `aliased` — `current_node` and `current_parent` are the same object,
  namely `top` (this arises from the `textarea` branch, which runs
  `current_parent = current_node` without resetting `current_node`).

Children are attached to a frame as wire records, exactly as
`add_child` stores `child.as_dict`. -/

/-- An open element under construction (or the `parent` argument):
tag name, attributes and the child records attached so far. -/
structure Frame where
  tagName : String
  attrs : Attrs
  children : List NRec
deriving DecidableEq, Repr

/-- The record `add_child` stores for a closing element:
`current_node.as_dict`, i.e. tag, attributes, the re-serialized child
records, and no `value` key (elements opened as containers are never
`textarea`, whose branch attaches a complete record immediately). -/
def Frame.toRec (f : Frame) : NRec :=
  .elem f.tagName f.attrs (NRecs.ofList (f.children.map canonRec)) none

/-- Append a child record to a frame (`add_child`). -/
def Frame.push (f : Frame) (r : NRec) : Frame :=
  ⟨f.tagName, f.attrs, f.children ++ [r]⟩

/-- Where `current_node` / `current_parent` point; see the section
comment. -/
inductive Mode where
  | noCur
  | cur
  | aliased
deriving DecidableEq, Repr

/-- Tokenizer loop state: the chain of open frames and the mode. -/
structure TState where
  top : Frame
  outer : List Frame
  mode : Mode
deriving DecidableEq, Repr

/-- Errors raised out of `tokenize`. -/
inductive TErr where
  | unexpectedClose (name : String)
  | badSyntax
  | noneParent
  | badState
deriving DecidableEq, Repr

/-- Result of `tokenize`: the final child records of the `parent`
argument, an exception, or non-termination of one of the scanning loops
(`hang`). -/
inductive TRes where
  | ok (children : List NRec)
  | err (e : TErr)
  | hang
deriving DecidableEq, Repr

/-- The child records of the bottom frame, i.e. of the `parent` argument:
what the caller of `tokenize` observes. -/
def finalChildren (st : TState) : List NRec :=
  (st.outer.getLastD st.top).children

/-- The closing-tag branch of `tokenize`.  With `current_node` set and the
name equal to its tag, attach it to `current_parent` and continue at the
same depth; else if the name equals `current_parent`'s tag, step up one
level and attach it (its own `parent` being `None` — the root — is the
Python `AttributeError`, `noneParent`); any other name raises
`ValueError("Unexpected close tag.", name)`.  In `aliased` mode
`current_parent` *is* `current_node`, so a matching name appends the
frame's own snapshot record to itself.  `badState` marks chain shapes
unreachable from the `tokenize` entry state. -/
def closeStep (name : String) (st : TState) : Except TErr TState :=
  match st.mode with
  | .cur =>
    if name = st.top.tagName then
      match st.outer with
      | g :: gs => .ok ⟨g.push st.top.toRec, gs, .noCur⟩
      | [] => .error .badState
    else
      match st.outer with
      | g :: gs =>
        if name = g.tagName then
          match gs with
          | h :: hs => .ok ⟨h.push g.toRec, hs, .noCur⟩
          | [] => .error .noneParent
        else .error (.unexpectedClose name)
      | [] => .error .badState
  | .noCur =>
    if name = st.top.tagName then
      match st.outer with
      | g :: gs => .ok ⟨g.push st.top.toRec, gs, .noCur⟩
      | [] => .error .noneParent
    else .error (.unexpectedClose name)
  | .aliased =>
    if name = st.top.tagName then
      .ok ⟨st.top.push st.top.toRec, st.outer, .noCur⟩
    else .error (.unexpectedClose name)

/-- Attach a record to `current_node` if set, else to `current_parent`
(both are `top` in every mode): the text-node branch, and — after
`descend` — the `textarea` branch. -/
def attachTop (r : NRec) (st : TState) : TState :=
  ⟨st.top.push r, st.outer, st.mode⟩

/-- Attach a comment record to `current_parent`: in `cur` mode that is the
head of `outer` (so a comment parsed while an element is still the
`current_node` is attached to that element's *parent*, not to it). -/
def addComment (r : NRec) (st : TState) : Except TErr TState :=
  match st.mode with
  | .cur =>
    match st.outer with
    | g :: gs => .ok ⟨st.top, g.push r :: gs, .cur⟩
    | [] => .error .badState
  | _ => .ok ⟨st.top.push r, st.outer, st.mode⟩

/-- The statement `if current_node: current_parent = current_node` at the
start of the element branch: in `cur` mode the two references become the
same object (`aliased`); otherwise nothing changes. -/
def descend (st : TState) : TState :=
  match st.mode with
  | .cur => ⟨st.top, st.outer, .aliased⟩
  | _ => st

/-- Open a container element: it becomes the new `current_node`, with the
previous `top` as its parent. -/
def openElement (name : String) (attrs : Attrs) (st : TState) : TState :=
  ⟨⟨name, attrs, []⟩, st.top :: st.outer, .cur⟩

/-- Run `expect` for each character of `cs` in turn (the
`for c in "</textarea>": self.expect(c)` loop). -/
def expectChars (cs : List Char) (s : List Char) : Option (List Char) :=
  match cs with
  | [] => some s
  | c :: rest =>
    match texpect [c] s with
    | none => none
    | some s' => expectChars rest s'

/-- One-lookahead main loop of `HTMLTokenizer.tokenize`, with fuel
bounding the number of `while self.char:` iterations (every iteration
consumes at least one input character, so the entry point's
`length + 1` never runs out; `hang` otherwise). -/
def tokLoop : Nat → List Char → TState → TRes
  | 0, _, _ => .hang
  | _ + 1, [], st => .ok (finalChildren st)
  | fuel + 1, s@(_ :: _), st =>
    match tmatch ['<'] s with
    | (true, s1) =>
      match tmatch ['/'] s1 with
      | (true, s2) =>
        match getName s2 with
        | (nm, s2a) =>
          match closeStep nm st with
          | .error e => .err e
          | .ok st' =>
            match texpect ['>'] s2a with
            | none => .err .badSyntax
            | some s3 => tokLoop fuel s3 st'
      | (false, s2) =>
        match tmatch ['?'] s2 with
        | (true, s3) =>
          match getAttrs s3 with
          | none => .hang
          | some (_, s4) =>
            match texpect ['?'] s4 with
            | none => .err .badSyntax
            | some s5 =>
              match texpect ['>'] s5 with
              | none => .err .badSyntax
              | some s6 => tokLoop fuel s6 st
        | (false, s3) =>
          match tmatch ['!'] s3 with
          | (true, s4) =>
            match texpect ['-'] s4 with
            | none => .err .badSyntax
            | some s5 =>
              match texpect ['-'] s5 with
              | none => .err .badSyntax
              | some s6 =>
                match scanComment s6 with
                | none => .hang
                | some (v, s7) =>
                  match addComment (.comment v) st with
                  | .error e => .err e
                  | .ok st' => tokLoop fuel s7 st'
          | (false, s4) =>
            match getName s4 with
            | (nm, s4a) =>
              match getAttrs s4a with
              | none => .hang
              | some (attrs, s5) =>
                if nm = "textarea" then
                  match texpect ['>'] s5 with
                  | none => .err .badSyntax
                  | some s6 =>
                    match getText "</textarea>".data s6 with
                    | (tv, s6a) =>
                      match expectChars "</textarea>".data s6a with
                      | none => .err .badSyntax
                      | some s7 =>
                        tokLoop fuel s7
                          (attachTop (.elem "textarea" attrs .nil (some tv)) (descend st))
                else
                  match texpect ['>'] s5 with
                  | none => .err .badSyntax
                  | some s6 => tokLoop fuel s6 (openElement nm attrs (descend st))
    | (false, s1) =>
      match getText ['<'] s1 with
      | (tv, s1a) => tokLoop fuel s1a (attachTop (.txt tv) st)

/-- Entry point: `HTMLTokenizer(raw).tokenize(parent)` for an
`ElementNode` parent with no parent of its own (e.g. a fresh element, or
`innerHTML` assignment after the child list was cleared). -/
def tokenize (raw : List Char) (parent : Frame) : TRes :=
  tokLoop (raw.length + 1) raw ⟨parent, [], .noCur⟩

end Polyplug

namespace Polyplug

/-! ## Selector queries (`Query`) -/

/-- The four query kinds of the `Query` class. -/
inductive QKind where
  | id
  | classname
  | tag
  | css
deriving DecidableEq, Repr

/-- Attribute name under which a query kind is stored / serialized. -/
def QKind.str : QKind → String
  | .id => "id"
  | .classname => "classname"
  | .tag => "tag"
  | .css => "css"

/-- A validated query: the raw selector string, its kind, and the target
stored under the kind's attribute name. -/
structure Query where
  raw_query : String
  query_type : QKind
  target : String
deriving DecidableEq, Repr

/-- ASCII model of Python `str.isalpha` (false on the empty string). -/
def pyIsAlpha (s : String) : Bool :=
  !s.data.isEmpty && s.data.all Char.isAlpha

/-- Model of `Query.__init__`: leading `#` → id with the remainder as
target (`ValueError("Invalid id.")` when empty); leading `.` → classname
(`ValueError("Invalid class.")` when empty); an all-alphabetic string →
tag with the string itself as target; anything else → css with the whole
string as target, except that an empty target raises
`ValueError("Bad query specification.")`. -/
def queryInit (query : String) : Except String Query :=
  if query.data.head? = some '#' then
    let target := String.mk query.data.tail
    if target = "" then .error "Invalid id." else .ok ⟨query, .id, target⟩
  else if query.data.head? = some '.' then
    let target := String.mk query.data.tail
    if target = "" then .error "Invalid class." else .ok ⟨query, .classname, target⟩
  else if pyIsAlpha query then .ok ⟨query, .tag, query⟩
  else if query = "" then .error "Bad query specification."
  else .ok ⟨query, .css, query⟩

/-- Model of `Query.as_dict`: the one-entry mapping
`{query_type: target}`. -/
def Query.asDict (q : Query) : String × String :=
  (q.query_type.str, q.target)

/-! ## Selector evaluation (`ElementNode.find`) -/

/-- Python `str.split(sep)` on character lists: split at every
occurrence of the separator (adjacent separators give empty pieces). -/
def splitOnChar (sep : Char) : List Char → List (List Char)
  | [] => [[]]
  | c :: cs =>
    match splitOnChar sep cs with
    | [] => if c = sep then [[], []] else [[c]]
    | h :: t => if c = sep then [] :: h :: t else (c :: h) :: t

/-- The `class` attribute split into whitespace-free tokens:
`[c for c in class_attr.split(" ") if c]`. -/
def classTokens (ca : String) : List String :=
  ((splitOnChar ' ' ca.data).map String.mk).filter (fun x => x ≠ "")

mutual
/-- Model of `ElementNode._find_by_id`: return this node if its `id`
attribute is non-empty and equals the target, else the first match among
its `ElementNode` children, depth first. -/
def findById (target : String) : NRec → Option NRec
  | .elem t a cs v =>
    let my_id := (a.lookup "id").getD ""
    if my_id ≠ "" ∧ my_id = target then some (.elem t a cs v)
    else if t = "textarea" then none
    else findByIdKids target cs
  | _ => none

/-- `_find_by_id` over the `ElementNode` children, in order. -/
def findByIdKids (target : String) : NRecs → Option NRec
  | .nil => none
  | .cons c cs =>
    match c with
    | .elem t a k v =>
      match findById target (.elem t a k v) with
      | some r => some r
      | none => findByIdKids target cs
    | _ => findByIdKids target cs
end

mutual
/-- Model of `ElementNode._find_by_class`: this node first when its
space-separated `class` tokens contain the target, then the matches of
its `ElementNode` children, depth first. -/
def findByClass (target : String) : NRec → List NRec
  | .elem t a cs v =>
    let ca := (a.lookup "class").getD ""
    (if ca ≠ "" ∧ target ∈ classTokens ca then [NRec.elem t a cs v] else []) ++
      (if t = "textarea" then [] else findByClassKids target cs)
  | _ => []

/-- `_find_by_class` collected over the `ElementNode` children. -/
def findByClassKids (target : String) : NRecs → List NRec
  | .nil => []
  | .cons c cs =>
    match c with
    | .elem t a k v => findByClass target (.elem t a k v) ++ findByClassKids target cs
    | _ => findByClassKids target cs
end

mutual
/-- Model of `ElementNode._find_by_tagName`: this node first when its
`tagName` equals the target, then the matches of its `ElementNode`
children, depth first. -/
def findByTag (target : String) : NRec → List NRec
  | .elem t a cs v =>
    (if t = target then [NRec.elem t a cs v] else []) ++
      (if t = "textarea" then [] else findByTagKids target cs)
  | _ => []

/-- `_find_by_tagName` collected over the `ElementNode` children. -/
def findByTagKids (target : String) : NRecs → List NRec
  | .nil => []
  | .cons c cs =>
    match c with
    | .elem t a k v => findByTag target (.elem t a k v) ++ findByTagKids target cs
    | _ => findByTagKids target cs
end

/-- ASCII model of Python `str.lower`. -/
def strLower (s : String) : String :=
  String.mk (s.data.map Char.toLower)

/-- Result of `ElementNode.find`: a single optional node (id search) or a
list of nodes (class / tag search). -/
inductive FindResult where
  | one (r : Option NRec)
  | many (rs : List NRec)
deriving DecidableEq, Repr

/-- Model of `ElementNode.find`: validate the selector
(`ValueError` on empty, bare `#`, bare `.`, or a non-alphabetic tag
name), then dispatch; a tag selector is lowercased before matching. -/
def find (node : NRec) (selector : String) : Except String FindResult :=
  if selector = "" then .error "Missing selector."
  else if selector.data.head? = some '#' then
    if String.mk selector.data.tail = "" then .error "Invalid id."
    else .ok (.one (findById (String.mk selector.data.tail) node))
  else if selector.data.head? = some '.' then
    if String.mk selector.data.tail = "" then .error "Invalid class."
    else .ok (.many (findByClass (String.mk selector.data.tail) node))
  else if pyIsAlpha selector then .ok (.many (findByTag (strLower selector) node))
  else .error "Invalid tag name."

/-! ## Parent back-reference injection (`ElementNode.childNodes`)

`childNodes` walks the stored child records, writes
`child["parent"] = self` into each stored record, and rebuilds a node
object from the record (dispatching on `nodeType`).  To state that this
read mutates nothing but the parent key, a stored record is modelled as
its structural content (`core`) plus the presence of the `parent` key. -/

/-- A stored child record: its structural fields and whether a `parent`
key has been written into it. -/
structure SRec where
  core : NRec
  parentSet : Bool
deriving DecidableEq, Repr

/-- One read of the `childNodes` property of an element with tag `t`
whose stored child records are `l`: the list of reconstructed child
nodes (each rebuilt from the record's structural fields, hence identified
with its `core`) together with the stored records after the read
(each one's `parent` key now written).  A `textarea` element returns `[]`
without touching the stored records. -/
def childNodesRead (t : String) (l : List SRec) : List NRec × List SRec :=
  if t = "textarea" then ([], l)
  else (l.map SRec.core, l.map (fun r => ⟨r.core, true⟩))

/-! ## The listener registry and message protocol -/

/-- A JSON value as produced by `json.loads`. -/
inductive JVal where
  | str (s : String)
  | num (n : Int)
  | bool (b : Bool)
  | null
  | arr (xs : List JVal)
  | obj (fields : List (String × JVal))

/-- Python truthiness of an optional JSON value (`msg.get(k)`:
`None` when the key is missing). -/
def jTruthy : Option JVal → Bool
  | none => false
  | some (.str s) => s ≠ ""
  | some (.num n) => n ≠ 0
  | some (.bool b) => b
  | some .null => false
  | some (.arr xs) => !xs.isEmpty
  | some (.obj fs) => !fs.isEmpty

/-- The event passed to a handler: the message's `type` value and the
`target` wire record the element was rebuilt from (`DomEvent`). -/
structure MDomEvent where
  event_type : JVal
  target : JVal

/-- A Python function value: its `__name__` and its behaviour — a handler
takes one event and either returns or raises (exception type name and
message). -/
structure PyFn where
  name : String
  fn : MDomEvent → Except (String × String) Unit

/-- The process-wide `LISTENERS` dict: fingerprint → handler. -/
abbrev Listeners := List (String × PyFn)

/-- The outbound JSON envelopes printed by the module; a query is
serialized as its `as_dict` pair. -/
inductive Envelope where
  | stdout (content : String)
  | registerEvent (query : String × String) (eventType : String) (listener : String)
  | removeEvent (query : String × String) (eventType : String)
  | updateDOM (query : String × String) (target : NRec)
  | error (ctxType ctxMsg : String)
deriving DecidableEq, Repr

/-- Model of `get_listener_id`: the (sha256-hex) hash of
`query.raw_query + event_type + listener.__name__`.  The external
`hashlib` digest is the opaque function parameter `hash`. -/
def get_listener_id (hash : String → String) (q : Query) (event_type : String)
    (listener : PyFn) : String :=
  hash (q.raw_query ++ event_type ++ listener.name)

/-- Exceptions raised out of `remove` / `plug`. -/
inductive PyErr where
  | valueError (msg : String)
  | keyError
deriving DecidableEq, Repr

/-- Result of calling a registry-mutating function: the exception it
raised (if any), the registry afterwards, and the envelopes printed. -/
structure CallResult where
  exn : Option PyErr
  registry : Listeners
  sent : List Envelope

/-- Ordered-dict deletion: `del d[k]` (the caller checks presence). -/
def dictErase {V : Type} (l : List (String × V)) (k : String) : List (String × V) :=
  match l with
  | [] => []
  | (k', v') :: t => if k' = k then t else (k', v') :: dictErase t k

/-- Model of `remove`: validate the query (a `ValueError` propagates),
recompute the fingerprint, `del LISTENERS[listener_id]` — a `KeyError`
when the fingerprint is absent, leaving the registry untouched and
printing nothing — and on success print one `removeEvent` envelope. -/
def remove (hash : String → String) (st : Listeners) (query event_type : String)
    (listener : PyFn) : CallResult :=
  match queryInit query with
  | .error m => ⟨some (.valueError m), st, []⟩
  | .ok q =>
    let lid := get_listener_id hash q event_type listener
    if (st.lookup lid).isSome then
      ⟨none, dictErase st lid, [.removeEvent q.asDict event_type]⟩
    else ⟨some .keyError, st, []⟩

/-- The closure `wrapper(event): return fn(event)` created by `plug`'s
decorator: same behaviour as the wrapped function, but its `__name__` is
always `"wrapper"`. -/
def wrapperOf (f : PyFn) : PyFn :=
  ⟨"wrapper", f.fn⟩

/-- Model of applying `plug(query, event_type)`'s decorator to a function:
validate the query (a `ValueError` propagates), wrap the function, compute
the fingerprint from the wrapper, print one `registerEvent` envelope, and
store the wrapper under the fingerprint (overwriting any existing
entry). -/
def plug (hash : String → String) (st : Listeners) (query event_type : String)
    (f : PyFn) : CallResult :=
  match queryInit query with
  | .error m => ⟨some (.valueError m), st, []⟩
  | .ok q =>
    let w := wrapperOf f
    let lid := get_listener_id hash q event_type w
    ⟨none, dictSet st lid w, [.registerEvent q.asDict event_type lid]⟩

/-- Outcome of `receive`: the handler was looked up and invoked exactly
once (with the result of that invocation), or some step failed and the
failure was converted into an error context. -/
inductive RcvOut where
  | invoked (listener : String) (hres : Except (String × String) Unit)
  | failed (ctxType ctxMsg : String)
deriving Repr

/-- The construction `ElementNode(**target)`: `target` must be a mapping
(else a `TypeError`) containing a `tagName` key (else a `KeyError`).
Further pathological constructions (e.g. a non-mapping `attributes`
value) are modelled as succeeding; they are never reached by the claims
checked here. -/
def elemNodeCheck : JVal → Option (String × String)
  | .obj fs =>
    match fs.lookup "tagName" with
    | none => some ("KeyError", "'tagName'")
    | some _ => none
  | _ => some ("TypeError", "argument is not a mapping")

/-- Model of `receive(raw)`.  `dec` is the outcome of the external
`json.loads(raw)` (decode-error message or JSON value).  Every exception
raised inside the `try` block — decode failure, a non-mapping message
(`.get` missing: `AttributeError`), a falsy/missing field
(`ValueError("Incomplete message received: " + raw)`), an unknown
listener (`RuntimeError`), a non-string listener (the `+` in the
`RuntimeError` message raises a `TypeError`), a bad `target`, or a raise
from the handler itself — becomes a `failed` outcome, which is printed as
exactly one `error` envelope. -/
def receive (raw : String) (dec : Except String JVal) (st : Listeners) : RcvOut :=
  match dec with
  | .error emsg => .failed "JSONDecodeError" emsg
  | .ok msg =>
    match msg with
    | .obj fs =>
      let et := fs.lookup "type"
      let tg := fs.lookup "target"
      let ls := fs.lookup "listener"
      if jTruthy et ∧ jTruthy tg ∧ jTruthy ls then
        match ls with
        | some (.str l) =>
          match st.lookup l with
          | some h =>
            match elemNodeCheck ((tg).getD .null) with
            | some (ty, m) => .failed ty m
            | none => .invoked l (h.fn ⟨(et).getD .null, (tg).getD .null⟩)
          | none => .failed "RuntimeError" ("No such listener: " ++ l)
        | _ => .failed "TypeError" "can only concatenate str to str"
      else .failed "ValueError" ("Incomplete message received: " ++ raw)
    | _ => .failed "AttributeError" "object has no attribute get"

/-- The error envelopes `receive` prints for an outcome: one for any
failure (including a raise out of the handler), none otherwise. -/
def rcvEnvelopes : RcvOut → List Envelope
  | .invoked _ (.ok _) => []
  | .invoked _ (.error (ty, m)) => [.error ty m]
  | .failed ty m => [.error ty m]

/-- How many times `receive` called a registered handler for an
outcome. -/
def rcvInvocations : RcvOut → Nat
  | .invoked _ _ => 1
  | .failed _ _ => 0

end Polyplug

namespace Polyplug

/-! ## Claim C3: selector classification -/

/-- Specification-side classification of a selector string, following the
claim's words literally, tried in order: a leading `#` yields an id query
with the remainder as target; a leading `.` a classname query with the
remainder; an all-alphabetic string a tag query with the string itself
(case preserved); any other non-empty string a css query with the whole
string; `"#"`, `"."` and `""` fail (`none`).  Each result also carries the
raw selector. -/
def classifySpecC3 (s : String) : Option (QKind × String × String) :=
  if s.data.head? = some '#' then
    if s.data.tail = [] then none else some (.id, String.mk s.data.tail, s)
  else if s.data.head? = some '.' then
    if s.data.tail = [] then none else some (.classname, String.mk s.data.tail, s)
  else if pyIsAlpha s then some (.tag, s, s)
  else if s = "" then none
  else some (.css, s, s)

/-- Claim C3 (confirmed): `Query.__init__` classifies selector strings
exactly as the claim states — `#`-prefixed to an id query with the
remainder as target, `.`-prefixed to a classname query, all-alphabetic to
a tag query with case preserved, any other non-empty string to a css
query over the whole string, and `"#"`, `"."`, `""` to a `ValueError`. -/
theorem C3_query_classification (s : String) :
    (queryInit s).toOption.map (fun q => (q.query_type, q.target, q.raw_query)) =
      classifySpecC3 s := by
  unfold queryInit classifySpecC3
  by_cases h1 : s.data.head? = some '#'
  · by_cases h2 : String.mk s.data.tail = ""
    · have : s.data.tail = [] := by
        have := congrArg String.data h2
        simpa using this
      simp only [h1, h2, this, if_true, if_pos, reduceIte]
      rfl
    · have : ¬ s.data.tail = [] := by
        intro h
        exact h2 (by simp [h])
      simp [h1, h2, this, Except.toOption]
  · by_cases h2 : s.data.head? = some '.'
    · by_cases h3 : String.mk s.data.tail = ""
      · have : s.data.tail = [] := by
          have := congrArg String.data h3
          simpa using this
        simp only [h1, h2, h3, this, if_true, if_pos, reduceIte]
        rfl
      · have : ¬ s.data.tail = [] := by
          intro h
          exact h3 (by simp [h])
        simp [h1, h2, h3, this, Except.toOption]
    · by_cases h3 : pyIsAlpha s
      · simp [h1, h2, h3, Except.toOption]
      · by_cases h4 : s = ""
        · subst h4
          simp [h3, Except.toOption]
        · simp [h1, h2, h3, h4, Except.toOption]

/-! ## Claim C9: `childNodes` reads are idempotent and structure-preserving -/

/-- Claim C9 (confirmed): for every element (tag name `t`, stored child
records `l`), reading `childNodes` again after a first read yields the
same reconstructed child trees, and a read changes no structural field of
the stored records — only the parent back-reference flag. -/
theorem C9_childNodes_idempotent (t : String) (l : List SRec) :
    (childNodesRead t (childNodesRead t l).2).1 = (childNodesRead t l).1 ∧
      ((childNodesRead t l).2).map SRec.core = l.map SRec.core := by
  unfold childNodesRead
  by_cases h : t = "textarea" <;> simp [h, Function.comp]

end Polyplug

namespace Polyplug

/-! ## Claims C10 and C8: listener fingerprints, registration, removal -/

theorem lookup_dictSet_self {V : Type} (l : List (String × V)) (k : String) (v : V) :
    (dictSet l k v).lookup k = some v := by
  induction l with
  | nil => simp [dictSet, List.lookup]
  | cons hd t ih =>
    obtain ⟨k', v'⟩ := hd
    by_cases hk : k' = k
    · simp [dictSet, hk, List.lookup]
    · have hkk : (k == k') = false := by simpa using Ne.symm hk
      simp [dictSet, hk, List.lookup, hkk, ih]

theorem keys_dictSet_of_mem {V : Type} (l : List (String × V)) (k : String) (v : V)
    (h : (l.lookup k).isSome) :
    (dictSet l k v).map Prod.fst = l.map Prod.fst := by
  induction l with
  | nil => simp [List.lookup] at h
  | cons hd t ih =>
    obtain ⟨k', v'⟩ := hd
    by_cases hk : k' = k
    · simp [dictSet, hk]
    · have hkk : (k == k') = false := by simpa using Ne.symm hk
      simp only [List.lookup, hkk] at h
      simp [dictSet, hk, ih h]

/-- Claim C10 (confirmed): the listener fingerprint depends on the handler
only through its `__name__` (equal names give equal fingerprints for the
same query and event type); and since `plug` registers a closure that is
always named `"wrapper"`, registering a second function through `plug`
for the same selector and event type computes the same fingerprint, so
the registry's key set is unchanged and the entry now holds the second
wrapper — the first registration is silently overwritten. -/
theorem C10_fingerprint_name_only (hash : String → String) (q : Query)
    (et : String) (f g : PyFn) (hname : f.name = g.name)
    (st : Listeners) (query : String) (q' : Query)
    (hq : queryInit query = .ok q') :
    get_listener_id hash q et f = get_listener_id hash q et g ∧
    ((plug hash (plug hash st query et f).registry query et g).registry.map Prod.fst
        = ((plug hash st query et f).registry.map Prod.fst)) ∧
    (plug hash (plug hash st query et f).registry query et g).registry.lookup
        (get_listener_id hash q' et (wrapperOf f)) = some (wrapperOf g) := by
  refine ⟨?_, ?_, ?_⟩
  · unfold get_listener_id
    rw [hname]
  · unfold plug
    rw [hq]
    simp only []
    apply keys_dictSet_of_mem
    have : (dictSet st (get_listener_id hash q' et (wrapperOf f)) (wrapperOf f)).lookup
        (get_listener_id hash q' et (wrapperOf g)) = some (wrapperOf f) := by
      have he : get_listener_id hash q' et (wrapperOf g)
          = get_listener_id hash q' et (wrapperOf f) := rfl
      rw [he]
      exact lookup_dictSet_self _ _ _
    simp [this]
  · unfold plug
    rw [hq]
    simp only []
    exact lookup_dictSet_self _ _ _

/-- Witness for claim C10 at concrete inputs: two functions both named
`"h"` (one returns, one raises) share a fingerprint, and two `plug`
registrations on selector `"#a"`, event `"click"` leave the key set
unchanged with the second wrapper stored. -/
theorem C10_witness :
    get_listener_id (fun s => s) ⟨"#a", .id, "a"⟩ "click" ⟨"h", fun _ => .ok ()⟩ =
      get_listener_id (fun s => s) ⟨"#a", .id, "a"⟩ "click" ⟨"h", fun _ => .error ("E", "m")⟩ ∧
    ((plug (fun s => s)
        (plug (fun s => s) [] "#a" "click" ⟨"h", fun _ => .ok ()⟩).registry
        "#a" "click" ⟨"h", fun _ => .error ("E", "m")⟩).registry.map Prod.fst
      = ((plug (fun s => s) [] "#a" "click" ⟨"h", fun _ => .ok ()⟩).registry.map Prod.fst)) ∧
    (plug (fun s => s)
        (plug (fun s => s) [] "#a" "click" ⟨"h", fun _ => .ok ()⟩).registry
        "#a" "click" ⟨"h", fun _ => .error ("E", "m")⟩).registry.lookup
        (get_listener_id (fun s => s) ⟨"#a", .id, "a"⟩ "click"
          (wrapperOf ⟨"h", fun _ => .ok ()⟩))
      = some (wrapperOf ⟨"h", fun _ => .error ("E", "m")⟩) :=
  C10_fingerprint_name_only (fun s => s) ⟨"#a", .id, "a"⟩ "click"
    ⟨"h", fun _ => .ok ()⟩ ⟨"h", fun _ => .error ("E", "m")⟩ rfl
    [] "#a" ⟨"#a", .id, "a"⟩ rfl

/-- Claim C8 (confirmed): `remove` recomputes the fingerprint of the same
(selector, event type, handler) triple; when the fingerprint is absent the
call fails with a `KeyError`, the registry is unchanged and no envelope is
printed; when present, the entry is deleted and exactly one `removeEvent`
envelope `{type:"removeEvent", query, eventType}` is printed. -/
theorem C8_remove (hash : String → String) (st : Listeners)
    (query et : String) (f : PyFn) (q : Query)
    (hq : queryInit query = .ok q) :
    ((st.lookup (get_listener_id hash q et f)).isSome = true →
        remove hash st query et f =
          ⟨none, dictErase st (get_listener_id hash q et f),
            [.removeEvent q.asDict et]⟩) ∧
    (st.lookup (get_listener_id hash q et f) = none →
        remove hash st query et f = ⟨some .keyError, st, []⟩) := by
  constructor
  · intro h
    unfold remove
    rw [hq]
    simp [h]
  · intro h
    unfold remove
    rw [hq]
    simp [h]

/-- Witness for claim C8 at concrete inputs: with the identity hash the
fingerprint of (`"#a"`, `"click"`, a function named `"h"`) is
`"#aclickh"`; removing it from a registry that holds it deletes the entry
and prints one `removeEvent` envelope, and removing it from the empty
registry raises a `KeyError` with nothing printed. -/
theorem C8_witness :
    remove (fun s => s) [("#aclickh", ⟨"h", fun _ => .ok ()⟩)] "#a" "click"
        ⟨"h", fun _ => .ok ()⟩ =
      ⟨none, [], [.removeEvent ("id", "a") "click"]⟩ ∧
    remove (fun s => s) [] "#a" "click" ⟨"h", fun _ => .ok ()⟩ =
      ⟨some .keyError, [], []⟩ :=
  ⟨(C8_remove (fun s => s) [("#aclickh", ⟨"h", fun _ => .ok ()⟩)] "#a" "click"
      ⟨"h", fun _ => .ok ()⟩ ⟨"#a", .id, "a"⟩ rfl).1 rfl,
    (C8_remove (fun s => s) [] "#a" "click" ⟨"h", fun _ => .ok ()⟩
      ⟨"#a", .id, "a"⟩ rfl).2 rfl⟩

end Polyplug

namespace Polyplug

/-! ## Claim C2: `receive` never raises past its boundary -/

/-- Claim C2 (confirmed): for every input (any decode outcome of the raw
text and any registry), `receive` either invokes the registered handler
exactly once (with no error envelope when the handler returns, and
exactly one when the handler itself raises), or invokes no handler and
emits exactly one error envelope `{type:"error", context:{type, msg}}`.
In particular an unregistered listener fingerprint yields exactly one
envelope whose context kind is `RuntimeError` with a
"listener not found" message, and text that is not valid JSON yields
exactly one envelope with a `JSONDecodeError` context. -/
theorem C2_receive_boundary (raw : String) (dec : Except String JVal)
    (st : Listeners) :
    ((rcvInvocations (receive raw dec st) = 1 ∧
        rcvEnvelopes (receive raw dec st) = []) ∨
      (rcvInvocations (receive raw dec st) = 0 ∧
        ∃ t m, rcvEnvelopes (receive raw dec st) = [.error t m]) ∨
      (rcvInvocations (receive raw dec st) = 1 ∧
        ∃ t m, rcvEnvelopes (receive raw dec st) = [.error t m])) ∧
    (∀ fs l, dec = .ok (.obj fs) → fs.lookup "listener" = some (.str l) →
        jTruthy (fs.lookup "type") = true → jTruthy (fs.lookup "target") = true →
        l ≠ "" → st.lookup l = none →
        receive raw dec st = .failed "RuntimeError" ("No such listener: " ++ l)) ∧
    (∀ e, dec = .error e →
        receive raw dec st = .failed "JSONDecodeError" e) := by
  refine ⟨?_, ?_, ?_⟩
  · match hout : receive raw dec st with
    | .invoked l (.ok u) => left; simp [rcvInvocations, rcvEnvelopes]
    | .invoked l (.error p) =>
      right; right
      obtain ⟨t, m⟩ := p
      exact ⟨rfl, t, m, rfl⟩
    | .failed t m => right; left; exact ⟨rfl, t, m, rfl⟩
  · intro fs l hdec hl ht htg hlne hnone
    subst hdec
    have hls : jTruthy (fs.lookup "listener") = true := by
      rw [hl]
      simp [jTruthy, hlne]
    simp only [receive, hl, ht, htg, hls, hnone]
    simp [jTruthy, hlne]
  · intro e hdec
    subst hdec
    rfl

end Polyplug

namespace Polyplug

/-! ## Behaviour of the cursor primitives on well-formed input -/

theorem nameChar_not_space {c : Char} (h : nameChar c = true) : pySpace c = false := by
  by_contra hc
  rw [Bool.not_eq_false] at hc
  unfold pySpace at hc
  simp only [Bool.or_eq_true, decide_eq_true_eq] at hc
  rcases hc with ((((h1 | h1) | h1) | h1) | h1) | h1 <;> subst h1 <;>
    revert h <;> decide

theorem quoteChar_cases {c : Char} (h : quoteChar c = true) : c = '"' ∨ c = '\'' := by
  unfold quoteChar at h
  simpa using h

theorem quoteChar_not_space {c : Char} (h : quoteChar c = true) : pySpace c = false := by
  rcases quoteChar_cases h with rfl | rfl <;> decide

theorem quoteChar_not_value {c : Char} (h : quoteChar c = true) : valueChar c = false := by
  rcases quoteChar_cases h with rfl | rfl <;> decide

theorem quoteChar_mem {c : Char} (h : quoteChar c = true) : c ∈ ['"', '\''] := by
  rcases quoteChar_cases h with rfl | rfl <;> simp

theorem not_mem_quotes {c : Char} (h : quoteChar c = false) : c ∉ ['"', '\''] := by
  intro hmem
  have hq : quoteChar c = true := by
    rcases (by simpa using hmem : c = '"' ∨ c = '\'') with rfl | rfl <;> decide
  rw [h] at hq
  cases hq

theorem skipWs_of_not_space {c : Char} (h : pySpace c = false) (s : List Char) :
    skipWs (c :: s) = c :: s := by
  simp [skipWs, h]

theorem skipWs_cons_space {c : Char} (h : pySpace c = true) (s : List Char) :
    skipWs (c :: s) = skipWs s := by
  simp [skipWs, h]

theorem skipWs_idem (s : List Char) : skipWs (skipWs s) = skipWs s := by
  induction s with
  | nil => rfl
  | cons c cs ih =>
    by_cases h : pySpace c = true
    · rw [skipWs_cons_space h, ih]
    · rw [Bool.not_eq_true] at h
      rw [skipWs_of_not_space h, skipWs_of_not_space h]

theorem tmatch_cons_mem {c : Char} {exp : List Char} (hsp : pySpace c = false)
    (hm : c ∈ exp) (s : List Char) : tmatch exp (c :: s) = (true, s) := by
  simp [tmatch, skipWs_of_not_space hsp, hm]

theorem tmatch_cons_not_mem {c : Char} {exp : List Char} (hsp : pySpace c = false)
    (hm : c ∉ exp) (s : List Char) : tmatch exp (c :: s) = (false, c :: s) := by
  simp [tmatch, skipWs_of_not_space hsp, hm]

theorem texpect_cons {c : Char} {exp : List Char} (hsp : pySpace c = false)
    (hm : c ∈ exp) (s : List Char) : texpect exp (c :: s) = some s := by
  simp [texpect, tmatch_cons_mem hsp hm]

theorem takeName_append {n : List Char} (hn : ∀ c ∈ n, nameChar c = true)
    {d : Char} (hd : nameChar d = false) (rest : List Char) :
    takeName (n ++ d :: rest) = (n, d :: rest) := by
  induction n with
  | nil => simp [takeName, hd]
  | cons c cs ih =>
    have hc : nameChar c = true := hn c (by simp)
    simp only [List.cons_append, takeName, hc, if_true, List.append_eq]
    rw [ih (fun x hx => hn x (by simp [hx]))]

theorem getName_run {n : List Char} (hne : n ≠ []) (hn : ∀ c ∈ n, nameChar c = true)
    {d : Char} (hd : nameChar d = false) (rest : List Char) :
    getName (n ++ d :: rest) = (String.mk n, d :: rest) := by
  obtain ⟨c, cs, rfl⟩ := List.exists_cons_of_ne_nil hne
  have hsp : pySpace c = false := nameChar_not_space (hn c (by simp))
  unfold getName
  rw [List.cons_append, skipWs_of_not_space hsp, ← List.cons_append,
    takeName_append hn hd]

theorem getName_stop {d : Char} (hd : nameChar d = false) (hsp : pySpace d = false)
    (rest : List Char) : getName (d :: rest) = ("", d :: rest) := by
  unfold getName
  rw [skipWs_of_not_space hsp]
  simp [takeName, hd]

theorem takeValueChars_append {v : List Char} (hv : ∀ c ∈ v, valueChar c = true)
    {d : Char} (hd : valueChar d = false) (rest : List Char) :
    takeValueChars (v ++ d :: rest) = some (v, d :: rest) := by
  induction v with
  | nil => simp [takeValueChars, hd]
  | cons c cs ih =>
    have hc : valueChar c = true := hv c (by simp)
    simp only [List.cons_append, takeValueChars, hc, if_true, List.append_eq]
    rw [ih (fun x hx => hv x (by simp [hx]))]

/-- `get_value` on a well-formed quoted value: the opening and closing
delimiters may be any mix of single and double quotes. -/
theorem getValue_quoted {q1 q2 : Char} (h1 : quoteChar q1 = true)
    (h2 : quoteChar q2 = true) {v : List Char} (hv : ∀ c ∈ v, valueChar c = true)
    (rest : List Char) :
    getValue ('=' :: q1 :: (v ++ q2 :: rest)) = some (String.mk v, rest) := by
  unfold getValue
  rw [skipWs_of_not_space (by decide)]
  rw [tmatch_cons_mem (by decide) (by simp)]
  dsimp only
  rw [tmatch_cons_mem (quoteChar_not_space h1) (quoteChar_mem h1)]
  dsimp only
  rw [takeValueChars_append hv (quoteChar_not_value h2)]
  dsimp only
  rw [tmatch_cons_mem (quoteChar_not_space h2) (quoteChar_mem h2)]

/-- `get_value` when the next non-whitespace character is not `=`: the
failed `expect` is swallowed and the value degrades to the empty
string. -/
theorem getValue_no_eq {s : List Char} {c : Char} {cs : List Char}
    (hs : skipWs s = c :: cs) (hc : c ≠ '=') :
    getValue s = some ("", c :: cs) := by
  have hss : skipWs (c :: cs) = c :: cs := by
    rw [← hs]; exact skipWs_idem s
  unfold getValue
  rw [hs]
  rw [show tmatch ['='] (c :: cs) = (false, c :: cs) by simp [tmatch, hss, hc]]

/-- `get_value` when `=` is followed (after whitespace) by a character
that is not a quote: the failed `expect` is swallowed. -/
theorem getValue_bad_open {s : List Char} {c : Char} {cs : List Char}
    (hs : skipWs s = c :: cs) (hc : quoteChar c = false) :
    getValue ('=' :: s) = some ("", c :: cs) := by
  have hss : skipWs (c :: cs) = c :: cs := by
    rw [← hs]; exact skipWs_idem s
  unfold getValue
  rw [skipWs_of_not_space (by decide)]
  rw [tmatch_cons_mem (by decide) (by simp)]
  dsimp only
  rw [show tmatch ['"', '\''] s = (false, c :: cs) by
    simp [tmatch, hs, hss, not_mem_quotes hc]]

/-- `get_value` when the closing delimiter is missing: the value
characters are read but the failed closing `expect` is swallowed and the
result degrades to the empty string. -/
theorem getValue_bad_close {q1 : Char} (h1 : quoteChar q1 = true)
    {v : List Char} (hv : ∀ c ∈ v, valueChar c = true)
    {d : Char} (hdv : valueChar d = false) (hdq : quoteChar d = false)
    (hdsp : pySpace d = false) (rest : List Char) :
    getValue ('=' :: q1 :: (v ++ d :: rest)) = some ("", d :: rest) := by
  unfold getValue
  rw [skipWs_of_not_space (by decide)]
  rw [tmatch_cons_mem (by decide) (by simp)]
  dsimp only
  rw [tmatch_cons_mem (quoteChar_not_space h1) (quoteChar_mem h1)]
  dsimp only
  rw [takeValueChars_append hv hdv]
  dsimp only
  rw [tmatch_cons_not_mem hdsp (not_mem_quotes hdq)]

end Polyplug

namespace Polyplug

/-! ## Attribute parsing on well-formed input -/

/-- No string occurs twice in the list. -/
def noDupKeys : List String → Bool
  | [] => true
  | k :: t => !(t.contains k) && noDupKeys t

/-- A name the tokenizer can read back: non-empty and made of name
characters. -/
def nameOkB (s : String) : Bool :=
  !s.data.isEmpty && s.data.all nameChar

/-- An attribute list the tokenizer can read back: every name is a
readable name, every value is made of value characters, and names are
pairwise distinct. -/
def attrsOkB (a : Attrs) : Bool :=
  a.all (fun p => nameOkB p.1 && p.2.data.all valueChar) && noDupKeys (a.map Prod.fst)

theorem strEta (s : String) : String.mk s.data = s := rfl

theorem nameOkB_data_ne {n : String} (h : nameOkB n = true) : n.data ≠ [] := by
  intro hd
  unfold nameOkB at h
  rw [hd] at h
  simp at h

theorem nameOkB_all {n : String} (h : nameOkB n = true) :
    ∀ c ∈ n.data, nameChar c = true := by
  unfold nameOkB at h
  rw [Bool.and_eq_true] at h
  exact fun c hc => List.all_eq_true.mp h.2 c hc

theorem nameOkB_ne_empty {n : String} (h : nameOkB n = true) : n ≠ "" := by
  intro he
  subst he
  simp [nameOkB] at h

theorem getName_ws (s : List Char) : getName (' ' :: s) = getName s := by
  unfold getName
  rw [skipWs_cons_space (by decide)]

theorem dictSet_not_mem {V : Type} (acc : List (String × V)) (n : String) (v : V)
    (h : ∀ p ∈ acc, p.1 ≠ n) : dictSet acc n v = acc ++ [(n, v)] := by
  induction acc with
  | nil => rfl
  | cons hd t ih =>
    obtain ⟨k, w⟩ := hd
    have hk : k ≠ n := h (k, w) (by simp)
    simp only [dictSet, hk, if_false, List.cons_append, reduceIte]
    rw [ih (fun p hp => h p (by simp [hp]))]

theorem le_length_renderAttrs (a : Attrs) : a.length ≤ (renderAttrs a).length := by
  induction a with
  | nil => simp [renderAttrs]
  | cons hd t ih =>
    obtain ⟨n, v⟩ := hd
    simp only [renderAttrs, List.length_cons, List.length_append]
    omega

theorem getAttrsLoop_render (a : Attrs) :
    ∀ (fuel : Nat) (acc : Attrs) (rest : List Char),
      a.length + 1 ≤ fuel →
      (∀ p ∈ a, nameOkB p.1 = true ∧ p.2.data.all valueChar = true) →
      noDupKeys (a.map Prod.fst) = true →
      (∀ p ∈ a, ∀ q ∈ acc, q.1 ≠ p.1) →
      getAttrsLoop fuel acc (renderAttrs a ++ '>' :: rest) = some (acc ++ a, '>' :: rest) := by
  induction a with
  | nil =>
    intro fuel acc rest hf _ _ _
    obtain ⟨f, rfl⟩ : ∃ f, fuel = f + 1 := ⟨fuel - 1, by omega⟩
    simp only [renderAttrs, List.nil_append, getAttrsLoop]
    rw [getName_stop (by decide) (by decide)]
    simp
  | cons hd t ih =>
    obtain ⟨n, v⟩ := hd
    intro fuel acc rest hf hok hnd hdisj
    obtain ⟨f, rfl⟩ : ∃ f, fuel = f + 1 := ⟨fuel - 1, by omega⟩
    have hnok := hok (n, v) (by simp)
    have hshape : renderAttrs ((n, v) :: t) ++ '>' :: rest
        = ' ' :: (n.data ++ '=' :: '"' :: (v.data ++ '"' :: (renderAttrs t ++ '>' :: rest))) := by
      simp [renderAttrs, List.append_assoc]
    rw [hshape]
    simp only [getAttrsLoop]
    rw [getName_ws, getName_run (nameOkB_data_ne hnok.1) (nameOkB_all hnok.1) (by decide)]
    dsimp only
    rw [strEta, if_neg (nameOkB_ne_empty hnok.1)]
    rw [getValue_quoted (by decide) (by decide)
      (fun c hc => List.all_eq_true.mp hnok.2 c hc)]
    dsimp only
    rw [strEta]
    rw [dictSet_not_mem acc n v (fun p hp => hdisj (n, v) (by simp) p hp)]
    rw [List.map_cons] at hnd
    rw [show noDupKeys (n :: t.map Prod.fst)
        = (!(t.map Prod.fst).contains n && noDupKeys (t.map Prod.fst)) from rfl] at hnd
    rw [Bool.and_eq_true] at hnd
    have hnotin : ∀ p ∈ t, p.1 ≠ n := by
      intro p hp he
      have hc : n ∈ t.map Prod.fst := by
        rw [← he]
        exact List.mem_map_of_mem Prod.fst hp
      have hcon := hnd.1
      rw [Bool.not_eq_true'] at hcon
      have htrue : (List.map Prod.fst t).contains n = true := by
        simp only [List.contains_iff_exists_mem_beq]
        exact ⟨n, hc, by simp⟩
      rw [hcon] at htrue
      cases htrue
    rw [ih f (acc ++ [(n, v)]) rest (by simpa using hf)
      (fun p hp => hok p (by simp [hp]))
      hnd.2
      (by
        intro p hp q hq
        rcases List.mem_append.mp hq with h1 | h1
        · exact hdisj p (by simp [hp]) q h1
        · have : q = (n, v) := by simpa using h1
          subst this
          exact fun he => hnotin p hp he.symm)]
    simp

/-- `get_attrs` reads back a rendered well-formed attribute list. -/
theorem getAttrs_render (a : Attrs) (rest : List Char) (hok : attrsOkB a = true) :
    getAttrs (renderAttrs a ++ '>' :: rest) = some (a, '>' :: rest) := by
  unfold attrsOkB at hok
  rw [Bool.and_eq_true] at hok
  unfold getAttrs
  rw [getAttrsLoop_render a _ [] rest
    (by
      have := le_length_renderAttrs a
      simp only [List.length_append, List.length_cons]
      omega)
    (fun p hp => by
      have := List.all_eq_true.mp hok.1 p hp
      rw [Bool.and_eq_true] at this
      exact this)
    hok.2
    (by intro p _ q hq; cases hq)]
  simp

/-- `get_attrs` on a single attribute written without `=`: the value is
the empty string. -/
theorem getAttrs_no_eq (n : String) (hn : nameOkB n = true) (rest : List Char) :
    getAttrs (n.data ++ '>' :: rest) = some ([(n, "")], '>' :: rest) := by
  unfold getAttrs
  obtain ⟨c, cs, hdata⟩ := List.exists_cons_of_ne_nil (nameOkB_data_ne hn)
  have hlen : (n.data ++ '>' :: rest).length + 1 = (n.data ++ '>' :: rest).length - 1 + 2 := by
    rw [hdata]
    simp only [List.length_cons, List.length_append]
    omega
  rw [hlen]
  simp only [getAttrsLoop]
  rw [getName_run (nameOkB_data_ne hn) (nameOkB_all hn) (by decide)]
  dsimp only
  rw [strEta, if_neg (nameOkB_ne_empty hn)]
  rw [getValue_no_eq (skipWs_of_not_space (by decide) rest) (by decide)]
  dsimp only
  rw [getName_stop (by decide) (by decide)]
  simp [dictSet]

end Polyplug

namespace Polyplug

/-! ## Claim C6: attribute parsing -/

/-- Claim C6 counterexample: `get_value` accepts a value whose opening
and closing delimiters do not match (single quote opened, double quote
closed) and returns the value `"a"` — the delimiters need not be a
matching pair, and malformed pairing is not degraded to `""` here. -/
theorem C6_counterexample :
    getValue ['=', '\'', 'a', '"', '>', 'x'] = some ("a", ['>', 'x']) ∧
      ('\'' : Char) ≠ '"' :=
  ⟨rfl, by decide⟩

/-- Claim C6 as amended: inside an open tag zero or more `name[=value]`
pairs are read back exactly; an attribute value is delimited by single or
double quotes, but the closing delimiter need not match the opening one;
an attribute written with no `=` gets the value `""`; and when the
quoting around a value is malformed — no quote after `=`, or a missing
closing quote before a non-space non-value character — the value-reader
swallows the failure and yields `""` instead of raising. -/
theorem C6_attr_parsing :
    (∀ (a : Attrs) (rest : List Char), attrsOkB a = true →
        getAttrs (renderAttrs a ++ '>' :: rest) = some (a, '>' :: rest)) ∧
    (∀ (q1 q2 : Char) (v : List Char) (rest : List Char),
        quoteChar q1 = true → quoteChar q2 = true →
        (∀ c ∈ v, valueChar c = true) →
        getValue ('=' :: q1 :: (v ++ q2 :: rest)) = some (String.mk v, rest)) ∧
    (∀ (n : String) (rest : List Char), nameOkB n = true →
        getAttrs (n.data ++ '>' :: rest) = some ([(n, "")], '>' :: rest)) ∧
    (∀ (s : List Char) (c : Char) (cs : List Char), skipWs s = c :: cs →
        quoteChar c = false → getValue ('=' :: s) = some ("", c :: cs)) ∧
    (∀ (q1 : Char) (v : List Char) (d : Char) (rest : List Char),
        quoteChar q1 = true → (∀ c ∈ v, valueChar c = true) →
        valueChar d = false → quoteChar d = false → pySpace d = false →
        getValue ('=' :: q1 :: (v ++ d :: rest)) = some ("", d :: rest)) :=
  ⟨fun a rest h => getAttrs_render a rest h,
    fun _ _ _v rest h1 h2 hv => getValue_quoted h1 h2 hv rest,
    fun n rest hn => getAttrs_no_eq n hn rest,
    fun _ _ _ hs hc => getValue_bad_open hs hc,
    fun _ _v _ rest h1 hv hdv hdq hdsp => getValue_bad_close h1 hv hdv hdq hdsp rest⟩

/-- Witness for claim C6 at concrete inputs: a quoted pair is read back,
a mismatched-delimiter value is read, a bare name gets value `""`, and
the two malformed-quoting shapes degrade to `""`. -/
theorem C6_witness :
    getAttrs (renderAttrs [("id", "foo")] ++ '>' :: []) = some ([("id", "foo")], ['>']) ∧
    getValue ('=' :: '\'' :: (['a'] ++ '"' :: [])) = some (String.mk ['a'], []) ∧
    getAttrs ("nov".data ++ '>' :: []) = some ([("nov", "")], ['>']) ∧
    getValue ('=' :: ['x']) = some ("", ['x']) ∧
    getValue ('=' :: '"' :: (['a'] ++ '/' :: [])) = some ("", ['/']) :=
  ⟨C6_attr_parsing.1 [("id", "foo")] [] (by decide),
    C6_attr_parsing.2.1 '\'' '"' ['a'] [] (by decide) (by decide) (by decide),
    C6_attr_parsing.2.2.1 "nov" [] (by decide),
    C6_attr_parsing.2.2.2.1 ['x'] 'x' [] rfl (by decide),
    C6_attr_parsing.2.2.2.2 '"' ['a'] '/' [] (by decide) (by decide) (by decide)
      (by decide) (by decide)⟩

end Polyplug

namespace Polyplug

/-! ## Claim C7: closing tags and end of input -/

/-- One `tokenize` iteration on a closing tag `</t>`: the close logic
runs, and on success the `>` is consumed and the loop continues. -/
theorem tokLoop_close (fuel : Nat) {t : String} (ht : nameOkB t = true)
    (rest : List Char) (st : TState) :
    tokLoop (fuel + 1) ('<' :: '/' :: (t.data ++ '>' :: rest)) st =
      match closeStep t st with
      | .error e => .err e
      | .ok st' => tokLoop fuel rest st' := by
  simp only [tokLoop]
  rw [tmatch_cons_mem (by decide) (by simp)]
  dsimp only
  rw [tmatch_cons_mem (by decide) (by simp)]
  dsimp only
  rw [getName_run (nameOkB_data_ne ht) (nameOkB_all ht) (by decide)]
  dsimp only
  rw [strEta]
  rw [texpect_cons (by decide) (by simp)]

/-- Claim C7 (confirmed): a closing tag equal to the current open
element's tag closes it, attaching it to the current parent, and parsing
resumes at the same depth; with no current node, a closing tag equal to
the current parent's tag pops one level and attaches it; in `cur` mode a
closing tag matching the parent instead of the current node also pops
(discarding the open node); any other closing-tag name aborts the whole
call with the "unexpected close tag" error; and end of input returns
silently whatever elements are still open. -/
theorem C7_close_tag_handling :
    (∀ (fuel : Nat) (t : String) (rest : List Char) (top g : Frame) (gs : List Frame),
        nameOkB t = true → t = top.tagName →
        tokLoop (fuel + 1) ('<' :: '/' :: (t.data ++ '>' :: rest)) ⟨top, g :: gs, .cur⟩
          = tokLoop fuel rest ⟨g.push top.toRec, gs, .noCur⟩) ∧
    (∀ (fuel : Nat) (t : String) (rest : List Char) (top g : Frame) (gs : List Frame),
        nameOkB t = true → t = top.tagName →
        tokLoop (fuel + 1) ('<' :: '/' :: (t.data ++ '>' :: rest)) ⟨top, g :: gs, .noCur⟩
          = tokLoop fuel rest ⟨g.push top.toRec, gs, .noCur⟩) ∧
    (∀ (fuel : Nat) (t : String) (rest : List Char) (top g h : Frame) (hs : List Frame),
        nameOkB t = true → t ≠ top.tagName → t = g.tagName →
        tokLoop (fuel + 1) ('<' :: '/' :: (t.data ++ '>' :: rest)) ⟨top, g :: h :: hs, .cur⟩
          = tokLoop fuel rest ⟨h.push g.toRec, hs, .noCur⟩) ∧
    (∀ (fuel : Nat) (t : String) (rest : List Char) (top g : Frame) (gs : List Frame),
        nameOkB t = true → t ≠ top.tagName → t ≠ g.tagName →
        tokLoop (fuel + 1) ('<' :: '/' :: (t.data ++ '>' :: rest)) ⟨top, g :: gs, .cur⟩
          = .err (.unexpectedClose t)) ∧
    (∀ (fuel : Nat) (t : String) (rest : List Char) (top : Frame) (outer : List Frame),
        nameOkB t = true → t ≠ top.tagName →
        tokLoop (fuel + 1) ('<' :: '/' :: (t.data ++ '>' :: rest)) ⟨top, outer, .noCur⟩
          = .err (.unexpectedClose t)) ∧
    (∀ (fuel : Nat) (st : TState), tokLoop (fuel + 1) [] st = .ok (finalChildren st)) := by
  refine ⟨?_, ?_, ?_, ?_, ?_, ?_⟩
  · intro fuel t rest top g gs ht heq
    rw [tokLoop_close fuel ht rest]
    simp [closeStep, heq]
  · intro fuel t rest top g gs ht heq
    rw [tokLoop_close fuel ht rest]
    simp [closeStep, heq]
  · intro fuel t rest top g h hs ht hne heq
    rw [tokLoop_close fuel ht rest]
    subst heq
    simp [closeStep, hne]
  · intro fuel t rest top g gs ht hne1 hne2
    rw [tokLoop_close fuel ht rest]
    simp [closeStep, hne1, hne2]
  · intro fuel t rest top outer ht hne
    rw [tokLoop_close fuel ht rest]
    simp [closeStep, hne]
  · intro fuel st
    rfl

/-- Witness for claim C7 at concrete inputs: closing `</p>` with `p`
open attaches it and parsing continues; `</div>` with `p` open and `div`
its parent pops one level; `</q>` in either situation is the
"unexpected close tag" error; and empty input returns the parent's
children silently even though `p` is still open. -/
theorem C7_witness :
    tokLoop 1 ('<' :: '/' :: ("p".data ++ '>' :: [])) ⟨⟨"p", [], []⟩, [⟨"div", [], []⟩], .cur⟩
      = tokLoop 0 [] ⟨Frame.push ⟨"div", [], []⟩ (Frame.toRec ⟨"p", [], []⟩), [], .noCur⟩ ∧
    tokLoop 1 ('<' :: '/' :: ("div".data ++ '>' :: []))
        ⟨⟨"p", [], []⟩, [⟨"div", [], []⟩, ⟨"body", [], []⟩], .cur⟩
      = tokLoop 0 [] ⟨Frame.push ⟨"body", [], []⟩ (Frame.toRec ⟨"div", [], []⟩), [], .noCur⟩ ∧
    tokLoop 1 ('<' :: '/' :: ("q".data ++ '>' :: [])) ⟨⟨"p", [], []⟩, [⟨"div", [], []⟩], .cur⟩
      = .err (.unexpectedClose "q") ∧
    tokLoop 1 ('<' :: '/' :: ("q".data ++ '>' :: [])) ⟨⟨"p", [], []⟩, [⟨"div", [], []⟩], .noCur⟩
      = .err (.unexpectedClose "q") ∧
    tokLoop 1 [] ⟨⟨"p", [], [.txt "x"]⟩, [⟨"div", [], []⟩], .cur⟩
      = .ok [] :=
  ⟨C7_close_tag_handling.1 0 "p" [] ⟨"p", [], []⟩ ⟨"div", [], []⟩ [] (by decide) rfl,
    C7_close_tag_handling.2.2.1 0 "div" [] ⟨"p", [], []⟩ ⟨"div", [], []⟩ ⟨"body", [], []⟩ []
      (by decide) (by decide) rfl,
    C7_close_tag_handling.2.2.2.1 0 "q" [] ⟨"p", [], []⟩ ⟨"div", [], []⟩ []
      (by decide) (by decide) (by decide),
    C7_close_tag_handling.2.2.2.2.1 0 "q" [] ⟨"p", [], []⟩ [⟨"div", [], []⟩]
      (by decide) (by decide),
    C7_close_tag_handling.2.2.2.2.2 0 ⟨⟨"p", [], [.txt "x"]⟩, [⟨"div", [], []⟩], .cur⟩⟩

end Polyplug

namespace Polyplug

/-! ## Occurrence reasoning for `splitUntil` -/

/-- Whether `u` occurs as a contiguous substring of `s` (at any
position). -/
def hasSub (u : List Char) : List Char → Bool
  | [] => u.isEmpty
  | c :: cs => isPre u (c :: cs) || hasSub u cs

/-- No proper non-trivial self-overlap: the terminator cannot begin again
inside itself, so an occurrence cannot straddle the boundary between the
scanned text and the appended terminator. -/
def overlapFreeB (u : List Char) : Bool :=
  (List.range u.length).all
    (fun m => (m == 0) || (u.drop m != u.take (u.length - m)))

theorem isPre_append_self (u r : List Char) : isPre u (u ++ r) = true := by
  induction u with
  | nil => rfl
  | cons c cs ih => simp [isPre, ih]

theorem isPre_iff {u w : List Char} : isPre u w = true ↔ u <+: w := by
  induction u generalizing w with
  | nil => simp [isPre]
  | cons c cs ih =>
    cases w with
    | nil =>
      simp [isPre]
    | cons d ds =>
      simp only [isPre, Bool.and_eq_true, decide_eq_true_eq, ih, List.cons_prefix_cons]

theorem splitUntil_boundary (u : List Char) (hu : u ≠ [])
    (hov : overlapFreeB u = true) :
    ∀ (s r : List Char), hasSub u s = false →
      splitUntil u (s ++ u ++ r) = (s, u ++ r) := by
  intro s
  induction s with
  | nil =>
    intro r _
    obtain ⟨uc, us, hue⟩ := List.exists_cons_of_ne_nil hu
    have hpre : isPre u (u ++ r) = true := isPre_append_self u r
    rw [List.nil_append]
    rw [hue] at hpre ⊢
    rw [List.cons_append]
    have hpre2 : isPre (uc :: us) (uc :: (us ++ r)) = true := hpre
    simp [splitUntil, hpre2]
  | cons c s' ih =>
    intro r hsub
    have hsub2 : isPre u (c :: s') = false ∧ hasSub u s' = false := by
      unfold hasSub at hsub
      rw [Bool.or_eq_false_iff] at hsub
      exact hsub
    have hnotpre : isPre u (c :: (s' ++ u ++ r)) = false := by
      by_contra hp
      rw [Bool.not_eq_false] at hp
      have hpref : u <+: (c :: s') ++ (u ++ r) := by
        have : (c :: s') ++ (u ++ r) = c :: (s' ++ u ++ r) := by simp
        rw [this]
        exact isPre_iff.mp hp
      by_cases hlen : u.length ≤ (c :: s').length
      · have : u <+: c :: s' := by
          rw [List.prefix_iff_eq_take] at hpref ⊢
          rw [hpref]
          rw [List.take_append_eq_append_take]
          have h0 : u.length - (c :: s').length = 0 := by omega
          rw [h0]
          simp
        rw [← isPre_iff] at this
        rw [hsub2.1] at this
        cases this
      · push_neg at hlen
        have hpre2 : c :: s' <+: u :=
          List.prefix_of_prefix_length_le (List.prefix_append _ _) hpref (by omega)
        obtain ⟨w', hw⟩ := hpref
        have hL : ((c :: s') ++ (u ++ r)).drop (c :: s').length = u ++ r := by
          rw [List.drop_append_eq_append_drop, List.drop_length, Nat.sub_self,
            List.drop_zero, List.nil_append]
        have hR : (u ++ w').drop (c :: s').length = u.drop (c :: s').length ++ w' := by
          rw [List.drop_append_eq_append_drop,
            show (c :: s').length - u.length = 0 by omega, List.drop_zero]
        have hdrop : u ++ r = u.drop (c :: s').length ++ w' := by
          rw [← hL, ← hR, hw]
        have hds : (u.drop (c :: s').length).length = u.length - (c :: s').length :=
          List.length_drop _ _
        have hL2 : (u ++ r).take (u.length - (c :: s').length)
            = u.take (u.length - (c :: s').length) := by
          rw [List.take_append_eq_append_take,
            show u.length - (c :: s').length - u.length = 0 by omega,
            List.take_zero, List.append_nil]
        have hR2 : (u.drop (c :: s').length ++ w').take (u.length - (c :: s').length)
            = u.drop (c :: s').length := by
          rw [List.take_append_eq_append_take,
            show u.length - (c :: s').length - (u.drop (c :: s').length).length = 0 by
              rw [hds]; omega,
            List.take_zero, List.append_nil, ← hds, List.take_length]
        have htake : u.take (u.length - (c :: s').length) = u.drop (c :: s').length := by
          rw [← hL2, ← hR2, hdrop]
        have hov' := List.all_eq_true.mp hov (c :: s').length
          (by rw [List.mem_range]; omega)
        rw [Bool.or_eq_true] at hov'
        rcases hov' with h0 | hne
        · rw [beq_iff_eq] at h0
          simp at h0
        · rw [bne_iff_ne] at hne
          exact hne htake.symm
    have hgoal : (c :: s') ++ u ++ r = c :: (s' ++ u ++ r) := by simp
    rw [hgoal]
    simp only [splitUntil, hnotpre, Bool.false_eq_true, if_false, reduceIte]
    rw [ih r hsub2.2]

theorem splitUntil_no_sub (u : List Char) :
    ∀ (s : List Char), hasSub u s = false → splitUntil u s = (s, []) := by
  intro s
  induction s with
  | nil => intro _; rfl
  | cons c cs ih =>
    intro hsub
    unfold hasSub at hsub
    rw [Bool.or_eq_false_iff] at hsub
    simp only [splitUntil, hsub.1, Bool.false_eq_true, if_false, reduceIte]
    rw [ih hsub.2]

theorem expectChars_run (u : List Char) (hs : ∀ c ∈ u, pySpace c = false) :
    ∀ (r : List Char), expectChars u (u ++ r) = some r := by
  induction u with
  | nil => intro r; rfl
  | cons c cs ih =>
    intro r
    simp only [List.cons_append, expectChars]
    rw [texpect_cons (hs c (by simp)) (by simp)]
    exact ih (fun x hx => hs x (by simp [hx])) r

theorem expectChars_eof (u : List Char) : expectChars u [] = some [] := by
  induction u with
  | nil => rfl
  | cons c cs ih =>
    simp only [expectChars, texpect, tmatch, skipWs]
    exact ih

end Polyplug

namespace Polyplug

/-! ## Claim C5: the `textarea` raw-text branch -/

theorem nameChar_ne {c d : Char} (hc : nameChar c = true) (hd : nameChar d = false) :
    c ≠ d := by
  intro he
  subst he
  rw [hc] at hd
  cases hd

theorem getName_before_attrs {n : String} (hn : nameOkB n = true) (a : Attrs)
    (rest : List Char) :
    getName (n.data ++ (renderAttrs a ++ '>' :: rest)) = (n, renderAttrs a ++ '>' :: rest) := by
  cases a with
  | nil =>
    simp only [renderAttrs, List.nil_append]
    rw [getName_run (nameOkB_data_ne hn) (nameOkB_all hn) (by decide)]
  | cons p t =>
    obtain ⟨an, av⟩ := p
    simp only [renderAttrs, List.cons_append]
    rw [getName_run (nameOkB_data_ne hn) (nameOkB_all hn) (by decide : nameChar ' ' = false)]

/-- One `tokenize` iteration on a well-formed container open tag
`<t attrs…>`: the element is opened as the new current node. -/
theorem tokLoop_open (fuel : Nat) {t : String} (ht : nameOkB t = true)
    (hta : t ≠ "textarea") {a : Attrs} (ha : attrsOkB a = true)
    (rest : List Char) (st : TState) :
    tokLoop (fuel + 1) ('<' :: (t.data ++ (renderAttrs a ++ '>' :: rest))) st
      = tokLoop fuel rest (openElement t a (descend st)) := by
  obtain ⟨c, cs, hdata⟩ := List.exists_cons_of_ne_nil (nameOkB_data_ne ht)
  have hc : nameChar c = true := nameOkB_all ht c (by rw [hdata]; simp)
  have hcs : pySpace c = false := nameChar_not_space hc
  simp only [tokLoop]
  rw [tmatch_cons_mem (by decide) (by simp)]
  dsimp only
  rw [hdata, List.cons_append]
  rw [tmatch_cons_not_mem hcs (by simp [nameChar_ne hc (by decide : nameChar '/' = false)])]
  dsimp only
  rw [tmatch_cons_not_mem hcs (by simp [nameChar_ne hc (by decide : nameChar '?' = false)])]
  dsimp only
  rw [tmatch_cons_not_mem hcs (by simp [nameChar_ne hc (by decide : nameChar '!' = false)])]
  dsimp only
  rw [← List.cons_append, ← hdata]
  rw [getName_before_attrs ht]
  dsimp only
  rw [getAttrs_render a _ ha]
  dsimp only
  rw [if_neg hta]
  rw [texpect_cons (by decide) (by simp)]

/-- One `tokenize` iteration on `<textarea attrs…>raw</textarea>`:
the raw text is read verbatim up to the literal closing sequence, the
closing sequence is consumed, and a childless `textarea` element record
holding the raw text is attached. -/
theorem tokLoop_textarea (fuel : Nat) {a : Attrs} (ha : attrsOkB a = true)
    {v : List Char} (hv : hasSub "</textarea>".data v = false)
    (rest : List Char) (st : TState) :
    tokLoop (fuel + 1)
        ('<' :: ("textarea".data ++
          (renderAttrs a ++ '>' :: (v ++ ("</textarea>".data ++ rest))))) st
      = tokLoop fuel rest
          (attachTop (.elem "textarea" a .nil (some (String.mk v))) (descend st)) := by
  conv_lhs => unfold tokLoop
  rw [show ("textarea".data : List Char) = 't' :: "extarea".data from rfl, List.cons_append]
  rw [tmatch_cons_mem (by decide) (by simp)]
  dsimp only
  rw [tmatch_cons_not_mem (by decide) (by decide)]
  dsimp only
  rw [tmatch_cons_not_mem (by decide) (by decide)]
  dsimp only
  rw [tmatch_cons_not_mem (by decide) (by decide)]
  dsimp only
  rw [show ('t' :: ("extarea".data ++ (renderAttrs a ++ '>' :: (v ++ ("</textarea>".data ++ rest)))))
      = ("textarea".data ++ (renderAttrs a ++ '>' :: (v ++ ("</textarea>".data ++ rest)))) from rfl]
  rw [getName_before_attrs (by decide) a]
  dsimp only
  rw [getAttrs_render a _ ha]
  dsimp only
  rw [if_pos rfl]
  rw [texpect_cons (by decide) (by simp)]
  dsimp only
  unfold getText
  rw [show v ++ ("</textarea>".data ++ rest) = v ++ "</textarea>".data ++ rest by simp]
  rw [splitUntil_boundary "</textarea>".data (by decide) (by decide) v rest hv]
  dsimp only
  rw [expectChars_run "</textarea>".data (by decide) rest]

/-- One `tokenize` iteration on `<textarea attrs…>raw` where the input
ends without the closing sequence: the raw text runs to end of input,
every `expect` of the closing sequence matches vacuously at EOF, and the
textarea element is still attached — no error is raised. -/
theorem tokLoop_textarea_eof (fuel : Nat) {a : Attrs} (ha : attrsOkB a = true)
    {v : List Char} (hv : hasSub "</textarea>".data v = false) (st : TState) :
    tokLoop (fuel + 1) ('<' :: ("textarea".data ++ (renderAttrs a ++ '>' :: v))) st
      = tokLoop fuel []
          (attachTop (.elem "textarea" a .nil (some (String.mk v))) (descend st)) := by
  conv_lhs => unfold tokLoop
  rw [show ("textarea".data : List Char) = 't' :: "extarea".data from rfl, List.cons_append]
  rw [tmatch_cons_mem (by decide) (by simp)]
  dsimp only
  rw [tmatch_cons_not_mem (by decide) (by decide)]
  dsimp only
  rw [tmatch_cons_not_mem (by decide) (by decide)]
  dsimp only
  rw [tmatch_cons_not_mem (by decide) (by decide)]
  dsimp only
  rw [show ('t' :: ("extarea".data ++ (renderAttrs a ++ '>' :: v)))
      = ("textarea".data ++ (renderAttrs a ++ '>' :: v)) from rfl]
  rw [getName_before_attrs (by decide) a]
  dsimp only
  rw [getAttrs_render a _ ha]
  dsimp only
  rw [if_pos rfl]
  rw [texpect_cons (by decide) (by simp)]
  dsimp only
  unfold getText
  rw [splitUntil_no_sub "</textarea>".data v hv]
  dsimp only
  rw [expectChars_eof]

/-- Claim C5 counterexample: the exact closing sequence is *not*
required — `<textarea>x` with no closing tag at all parses without
error, because every `expect` of the closing sequence succeeds vacuously
at end of input; the textarea (value `"x"`) is still appended. -/
theorem C5_counterexample :
    tokenize "<textarea>x".data ⟨"div", [], []⟩
      = .ok [.elem "textarea" [] .nil (some "x")] := rfl

/-- Claim C5 as amended: when the tokenizer reads an open tag named
exactly `textarea` it consumes `>`, reads the following text verbatim up
to the literal sequence `</textarea>` (every character, including stray
`<`, is kept), consumes that closing sequence when it occurs — but at
end of input the closing-sequence `expect`s match vacuously, so a
missing closing sequence is not an error — and attaches a childless
`textarea` element whose value is the raw text; consequently assigning
`innerHTML = "<textarea>Test <fake html></textarea>"` and reading
`innerHTML` back returns the identical string. -/
theorem C5_textarea :
    (∀ (fuel : Nat) (a : Attrs) (v rest : List Char) (st : TState),
        attrsOkB a = true → hasSub "</textarea>".data v = false →
        tokLoop (fuel + 1)
            ('<' :: ("textarea".data ++
              (renderAttrs a ++ '>' :: (v ++ ("</textarea>".data ++ rest))))) st
          = tokLoop fuel rest
              (attachTop (.elem "textarea" a .nil (some (String.mk v))) (descend st))) ∧
    (∀ (fuel : Nat) (a : Attrs) (v : List Char) (st : TState),
        attrsOkB a = true → hasSub "</textarea>".data v = false →
        tokLoop (fuel + 1) ('<' :: ("textarea".data ++ (renderAttrs a ++ '>' :: v))) st
          = tokLoop fuel []
              (attachTop (.elem "textarea" a .nil (some (String.mk v))) (descend st))) ∧
    (tokenize "<textarea>Test <fake html></textarea>".data ⟨"div", [], []⟩
        = .ok [.elem "textarea" [] .nil (some "Test <fake html>")] ∧
      innerHTMLL [.elem "textarea" [] .nil (some "Test <fake html>")]
        = "<textarea>Test <fake html></textarea>".data) :=
  ⟨fun fuel _a _v rest st ha hv => tokLoop_textarea fuel ha hv rest st,
    fun fuel _a _v st ha hv => tokLoop_textarea_eof fuel ha hv st,
    rfl, rfl⟩

/-- Witness for claim C5 at concrete inputs: parsing
`<textarea>x</textarea>` attaches the textarea record and continues, and
the same with the closing sequence missing attaches it at end of
input. -/
theorem C5_witness :
    tokLoop 1
        ('<' :: ("textarea".data ++
          (renderAttrs [] ++ '>' :: (['x'] ++ ("</textarea>".data ++ [])))))
        ⟨⟨"div", [], []⟩, [], .noCur⟩
      = tokLoop 0 []
          (attachTop (.elem "textarea" [] .nil (some (String.mk ['x'])))
            (descend ⟨⟨"div", [], []⟩, [], .noCur⟩)) ∧
    tokLoop 1 ('<' :: ("textarea".data ++ (renderAttrs [] ++ '>' :: ['x'])))
        ⟨⟨"div", [], []⟩, [], .noCur⟩
      = tokLoop 0 []
          (attachTop (.elem "textarea" [] .nil (some (String.mk ['x'])))
            (descend ⟨⟨"div", [], []⟩, [], .noCur⟩)) :=
  ⟨C5_textarea.1 0 [] ['x'] [] ⟨⟨"div", [], []⟩, [], .noCur⟩ (by decide) (by decide),
    C5_textarea.2.1 0 [] ['x'] ⟨⟨"div", [], []⟩, [], .noCur⟩ (by decide) (by decide)⟩

end Polyplug

namespace Polyplug

/-! ## Claim C4: `find` evaluation -/

/-- The `id` attribute as `find` reads it (`attributes.get("id")`,
missing key defaulting to a falsy value). -/
def idAttrOf : NRec → String
  | .elem _ a _ _ => (a.lookup "id").getD ""
  | _ => ""

/-- The `class` attribute as `find` reads it. -/
def classAttrOf : NRec → String
  | .elem _ a _ _ => (a.lookup "class").getD ""
  | _ => ""

/-- The tag name of an element record. -/
def tagOf : NRec → String
  | .elem t _ _ _ => t
  | _ => ""

mutual
/-- Specification-side depth-first pre-order traversal of an element and
its `ElementNode` descendants: the node itself first, then its element
children's traversals in order (a `textarea` has no children). -/
def preorderElems : NRec → List NRec
  | .elem t a cs v =>
    .elem t a cs v :: (if t = "textarea" then [] else preorderKids cs)
  | _ => []

/-- Pre-order traversals of the `ElementNode` members of a child list,
concatenated in order. -/
def preorderKids : NRecs → List NRec
  | .nil => []
  | .cons c cs =>
    match c with
    | .elem t a k v => preorderElems (.elem t a k v) ++ preorderKids cs
    | _ => preorderKids cs
end

mutual
theorem findById_eq (target : String) : ∀ r : NRec,
    findById target r = (preorderElems r).find?
      (fun e => (idAttrOf e != "") && (idAttrOf e == target)) := by
  intro r
  cases r with
  | elem t a cs v =>
    rw [show findById target (.elem t a cs v)
        = (if (a.lookup "id").getD "" ≠ "" ∧ (a.lookup "id").getD "" = target
            then some (.elem t a cs v)
            else if t = "textarea" then none else findByIdKids target cs) from rfl]
    rw [show preorderElems (.elem t a cs v)
        = .elem t a cs v :: (if t = "textarea" then [] else preorderKids cs) from rfl]
    rw [List.find?_cons]
    by_cases hc : (a.lookup "id").getD "" ≠ "" ∧ (a.lookup "id").getD "" = target
    · rw [if_pos hc]
      have hb : ((idAttrOf (NRec.elem t a cs v) != "")
          && (idAttrOf (NRec.elem t a cs v) == target)) = true := by
        have ht' : target ≠ "" := hc.2 ▸ hc.1
        simp [idAttrOf, hc.2, ht']
      rw [hb]
    · rw [if_neg hc]
      have hb : ((idAttrOf (NRec.elem t a cs v) != "")
          && (idAttrOf (NRec.elem t a cs v) == target)) = false := by
        simp only [idAttrOf, Bool.and_eq_false_iff]
        by_cases h1 : (a.lookup "id").getD "" = ""
        · left; simp [h1]
        · right
          have h2 : ¬ (a.lookup "id").getD "" = target := fun h => hc ⟨h1, h⟩
          simp [h2]
      rw [hb]
      dsimp only
      by_cases ht : t = "textarea"
      · rw [if_pos ht, if_pos ht]
        rfl
      · rw [if_neg ht, if_neg ht]
        exact findByIdKids_eq target cs
  | txt s => rfl
  | comment s => rfl
  | frag => rfl

theorem findByIdKids_eq (target : String) : ∀ cs : NRecs,
    findByIdKids target cs = (preorderKids cs).find?
      (fun e => (idAttrOf e != "") && (idAttrOf e == target)) := by
  intro cs
  cases cs with
  | nil => rfl
  | cons c cs =>
    cases c with
    | elem t a k v =>
      rw [show findByIdKids target (.cons (.elem t a k v) cs)
          = (match findById target (.elem t a k v) with
              | some r => some r
              | none => findByIdKids target cs) from rfl]
      rw [show preorderKids (.cons (.elem t a k v) cs)
          = preorderElems (.elem t a k v) ++ preorderKids cs from rfl]
      rw [List.find?_append]
      rw [← findById_eq target (.elem t a k v), ← findByIdKids_eq target cs]
      cases findById target (.elem t a k v) with
      | none => simp [Option.orElse]
      | some r => simp [Option.orElse]
    | txt s => exact findByIdKids_eq target cs
    | comment s => exact findByIdKids_eq target cs
    | frag => exact findByIdKids_eq target cs
end

end Polyplug

namespace Polyplug

mutual
theorem findByClass_eq (target : String) : ∀ r : NRec,
    findByClass target r = (preorderElems r).filter
      (fun e => decide (target ∈ classTokens (classAttrOf e))) := by
  intro r
  cases r with
  | elem t a cs v =>
    rw [show findByClass target (.elem t a cs v)
        = ((if (a.lookup "class").getD "" ≠ "" ∧ target ∈ classTokens ((a.lookup "class").getD "")
              then [NRec.elem t a cs v] else []) ++
            (if t = "textarea" then [] else findByClassKids target cs)) from rfl]
    rw [show preorderElems (.elem t a cs v)
        = .elem t a cs v :: (if t = "textarea" then [] else preorderKids cs) from rfl]
    rw [List.filter_cons]
    have hca : classAttrOf (NRec.elem t a cs v) = (a.lookup "class").getD "" := rfl
    by_cases hm : target ∈ classTokens ((a.lookup "class").getD "")
    · have hne : (a.lookup "class").getD "" ≠ "" := by
        intro h0
        rw [h0] at hm
        rw [show classTokens "" = [] from rfl] at hm
        cases hm
      have hq : decide (target ∈ classTokens (classAttrOf (NRec.elem t a cs v))) = true := by
        rw [hca]
        exact decide_eq_true hm
      rw [if_pos (And.intro hne hm), hq, if_pos rfl, List.singleton_append]
      by_cases ht : t = "textarea"
      · rw [if_pos ht, if_pos ht]
        rfl
      · rw [if_neg ht, if_neg ht]
        rw [findByClassKids_eq target cs]
    · have hq : decide (target ∈ classTokens (classAttrOf (NRec.elem t a cs v))) = false := by
        rw [hca]
        exact decide_eq_false hm
      rw [if_neg (fun hand => hm hand.2), hq,
        if_neg (show ¬ (false = true) by decide), List.nil_append]
      by_cases ht : t = "textarea"
      · rw [if_pos ht, if_pos ht]
        rfl
      · rw [if_neg ht, if_neg ht]
        rw [findByClassKids_eq target cs]
  | txt s => rfl
  | comment s => rfl
  | frag => rfl

theorem findByClassKids_eq (target : String) : ∀ cs : NRecs,
    findByClassKids target cs = (preorderKids cs).filter
      (fun e => decide (target ∈ classTokens (classAttrOf e))) := by
  intro cs
  cases cs with
  | nil => rfl
  | cons c cs =>
    cases c with
    | elem t a k v =>
      rw [show findByClassKids target (.cons (.elem t a k v) cs)
          = findByClass target (.elem t a k v) ++ findByClassKids target cs from rfl]
      rw [show preorderKids (.cons (.elem t a k v) cs)
          = preorderElems (.elem t a k v) ++ preorderKids cs from rfl]
      rw [List.filter_append]
      rw [findByClass_eq target (.elem t a k v), findByClassKids_eq target cs]
    | txt s => exact findByClassKids_eq target cs
    | comment s => exact findByClassKids_eq target cs
    | frag => exact findByClassKids_eq target cs
end

mutual
theorem findByTag_eq (target : String) : ∀ r : NRec,
    findByTag target r = (preorderElems r).filter
      (fun e => decide (tagOf e = target)) := by
  intro r
  cases r with
  | elem t a cs v =>
    rw [show findByTag target (.elem t a cs v)
        = ((if t = target then [NRec.elem t a cs v] else []) ++
            (if t = "textarea" then [] else findByTagKids target cs)) from rfl]
    rw [show preorderElems (.elem t a cs v)
        = .elem t a cs v :: (if t = "textarea" then [] else preorderKids cs) from rfl]
    rw [List.filter_cons]
    have htg : tagOf (NRec.elem t a cs v) = t := rfl
    by_cases hm : t = target
    · have hq : decide (tagOf (NRec.elem t a cs v) = target) = true := by
        rw [htg]
        exact decide_eq_true hm
      rw [if_pos hm, hq, if_pos rfl, List.singleton_append]
      by_cases ht : t = "textarea"
      · rw [if_pos ht, if_pos ht]
        rfl
      · rw [if_neg ht, if_neg ht]
        rw [findByTagKids_eq target cs]
    · have hq : decide (tagOf (NRec.elem t a cs v) = target) = false := by
        rw [htg]
        exact decide_eq_false hm
      rw [if_neg hm, hq,
        if_neg (show ¬ (false = true) by decide), List.nil_append]
      by_cases ht : t = "textarea"
      · rw [if_pos ht, if_pos ht]
        rfl
      · rw [if_neg ht, if_neg ht]
        rw [findByTagKids_eq target cs]
  | txt s => rfl
  | comment s => rfl
  | frag => rfl

theorem findByTagKids_eq (target : String) : ∀ cs : NRecs,
    findByTagKids target cs = (preorderKids cs).filter
      (fun e => decide (tagOf e = target)) := by
  intro cs
  cases cs with
  | nil => rfl
  | cons c cs =>
    cases c with
    | elem t a k v =>
      rw [show findByTagKids target (.cons (.elem t a k v) cs)
          = findByTag target (.elem t a k v) ++ findByTagKids target cs from rfl]
      rw [show preorderKids (.cons (.elem t a k v) cs)
          = preorderElems (.elem t a k v) ++ preorderKids cs from rfl]
      rw [List.filter_append]
      rw [findByTag_eq target (.elem t a k v), findByTagKids_eq target cs]
    | txt s => exact findByTagKids_eq target cs
    | comment s => exact findByTagKids_eq target cs
    | frag => exact findByTagKids_eq target cs
end

end Polyplug

namespace Polyplug

/-- Claim C4 counterexample: `find` lowercases a tag selector before
matching, so the selector `"DIV"` does **not** match an element whose
`tagName` is `"DIV"` — tag match is not plain tagName equality with the
selector. -/
theorem C4_counterexample :
    find (.elem "DIV" [] .nil none) "DIV" = .ok (.many []) ∧
      tagOf (.elem "DIV" [] .nil none) = "DIV" :=
  ⟨rfl, rfl⟩

/-- Claim C4 as amended: for every tree, an id selector returns the
first element in depth-first pre-order (root first) whose `id` attribute
equals the target, or `None`; a classname selector returns all elements
in pre-order (root included) whose space-separated `class` tokens
contain the target; a tag selector returns all elements in pre-order
whose `tagName` equals the *lowercased* selector; and an empty selector,
a bare `#` or `.`, or a non-`#`/`.` selector that is not all-alphabetic
raises a `ValueError` instead of being evaluated. -/
theorem C4_find_evaluation :
    (∀ (root : NRec) (t : String), t ≠ "" →
        find root ("#" ++ t)
          = .ok (.one ((preorderElems root).find? (fun e => idAttrOf e == t)))) ∧
    (∀ (root : NRec) (t : String), t ≠ "" →
        find root ("." ++ t)
          = .ok (.many ((preorderElems root).filter
              (fun e => decide (t ∈ classTokens (classAttrOf e)))))) ∧
    (∀ (root : NRec) (s : String), pyIsAlpha s = true →
        find root s
          = .ok (.many ((preorderElems root).filter
              (fun e => decide (tagOf e = strLower s))))) ∧
    (∀ root : NRec, find root "" = .error "Missing selector.") ∧
    (∀ root : NRec, find root "#" = .error "Invalid id.") ∧
    (∀ root : NRec, find root "." = .error "Invalid class.") ∧
    (∀ (root : NRec) (s : String), s ≠ "" → s.data.head? ≠ some '#' →
        s.data.head? ≠ some '.' → pyIsAlpha s = false →
        find root s = .error "Invalid tag name.") := by
  refine ⟨?_, ?_, ?_, ?_, ?_, ?_, ?_⟩
  · intro root t ht
    have hdata : ("#" ++ t).data = '#' :: t.data := by
      rw [String.data_append]
      rfl
    have hne0 : ("#" ++ t) ≠ "" := by
      intro h0
      have := congrArg String.data h0
      rw [hdata] at this
      cases this
    unfold find
    rw [if_neg hne0, hdata]
    rw [if_pos (show (('#' :: t.data).head? = some '#') from rfl)]
    dsimp only [List.tail_cons]
    rw [strEta]
    rw [if_neg ht]
    rw [findById_eq t root]
    have hpred : (fun e => (idAttrOf e != "") && (idAttrOf e == t))
        = (fun e => idAttrOf e == t) := by
      funext e
      by_cases h : idAttrOf e = ""
      · have hf : (idAttrOf e == t) = false := by
          rw [h]
          exact beq_eq_false_iff_ne.mpr (Ne.symm ht)
        rw [hf]
        simp [h]
      · simp [h]
    rw [hpred]
  · intro root t ht
    have hdata : ("." ++ t).data = '.' :: t.data := by
      rw [String.data_append]
      rfl
    have hne0 : ("." ++ t) ≠ "" := by
      intro h0
      have := congrArg String.data h0
      rw [hdata] at this
      cases this
    unfold find
    rw [if_neg hne0, hdata]
    rw [if_neg (show ¬ (('.' :: t.data).head? = some '#') by simp)]
    rw [if_pos (show (('.' :: t.data).head? = some '.') from rfl)]
    dsimp only [List.tail_cons]
    rw [strEta]
    rw [if_neg ht]
    rw [findByClass_eq t root]
  · intro root s hs
    have hdn : s.data ≠ [] := by
      intro h0
      unfold pyIsAlpha at hs
      rw [h0] at hs
      simp at hs
    obtain ⟨c, cs, hdata⟩ := List.exists_cons_of_ne_nil hdn
    have hc : c.isAlpha = true := by
      have := List.all_eq_true.mp ((Bool.and_eq_true _ _).mp hs).2 c (by rw [hdata]; simp)
      exact this
    have hcn : ∀ d : Char, d.isAlpha = false → c ≠ d := by
      intro d hd he
      subst he
      rw [hc] at hd
      cases hd
    have hne : s ≠ "" := by
      intro h0
      subst h0
      simp [pyIsAlpha] at hs
    unfold find
    rw [if_neg hne, hdata]
    rw [if_neg (by
      intro h0
      have h0c : c = '#' := by simpa using h0
      exact hcn '#' (by decide) h0c)]
    rw [if_neg (by
      intro h0
      have h0c : c = '.' := by simpa using h0
      exact hcn '.' (by decide) h0c)]
    rw [if_pos hs]
    rw [findByTag_eq (strLower s) root]
  · intro root
    rfl
  · intro root
    rfl
  · intro root
    rfl
  · intro root s hne h1 h2 ha
    unfold find
    rw [if_neg hne, if_neg h1, if_neg h2, if_neg (by rw [ha]; exact Bool.false_ne_true)]

/-- Witness for claim C4 at concrete inputs: on the tree
`<ul id="u" class="big"><li class="big hot">…</li><li>…</li></ul>` the
id query `#u` returns the root, the class query `.big` returns root and
first item in pre-order, the tag query `li` returns both items, and the
bad selectors `""`, `"#"`, `"."`, `"p q"` raise. -/
theorem C4_witness :
    find
        (.elem "ul" [("id", "u"), ("class", "big")]
          (.cons (.elem "li" [("class", "big hot")] .nil none)
            (.cons (.elem "li" [] .nil none) .nil)) none) "#u"
      = .ok (.one (some (.elem "ul" [("id", "u"), ("class", "big")]
          (.cons (.elem "li" [("class", "big hot")] .nil none)
            (.cons (.elem "li" [] .nil none) .nil)) none))) ∧
    find
        (.elem "ul" [("id", "u"), ("class", "big")]
          (.cons (.elem "li" [("class", "big hot")] .nil none)
            (.cons (.elem "li" [] .nil none) .nil)) none) ".big"
      = .ok (.many [.elem "ul" [("id", "u"), ("class", "big")]
          (.cons (.elem "li" [("class", "big hot")] .nil none)
            (.cons (.elem "li" [] .nil none) .nil)) none,
          .elem "li" [("class", "big hot")] .nil none]) ∧
    find
        (.elem "ul" [("id", "u"), ("class", "big")]
          (.cons (.elem "li" [("class", "big hot")] .nil none)
            (.cons (.elem "li" [] .nil none) .nil)) none) "li"
      = .ok (.many [.elem "li" [("class", "big hot")] .nil none,
          .elem "li" [] .nil none]) ∧
    find (.elem "div" [] .nil none) "" = .error "Missing selector." ∧
    find (.elem "div" [] .nil none) "#" = .error "Invalid id." ∧
    find (.elem "div" [] .nil none) "." = .error "Invalid class." ∧
    find (.elem "div" [] .nil none) "p q" = .error "Invalid tag name." := by
  refine ⟨?_, ?_, ?_, ?_, ?_, ?_, ?_⟩
  · exact (C4_find_evaluation.1 _ "u" (by decide)).trans (by rfl)
  · exact (C4_find_evaluation.2.1 _ "big" (by decide)).trans (by rfl)
  · exact (C4_find_evaluation.2.2.1 _ "li" (by decide)).trans (by rfl)
  · exact C4_find_evaluation.2.2.2.1 _
  · exact C4_find_evaluation.2.2.2.2.1 _
  · exact C4_find_evaluation.2.2.2.2.2.1 _
  · exact C4_find_evaluation.2.2.2.2.2.2 _ "p q" (by decide) (by decide) (by decide)
      (by decide)

end Polyplug

namespace Polyplug

/-- Witness for `C2_receive_boundary`: a well-formed message naming an
unregistered listener produces exactly the `RuntimeError` failure, and a
decode error produces exactly the `JSONDecodeError` failure. -/
theorem C2_witness :
    receive "m"
        (.ok (.obj [("type", .str "click"),
          ("target", .obj [("tagName", .str "div")]),
          ("listener", .str "unknownX")])) [] =
      .failed "RuntimeError" ("No such listener: " ++ "unknownX") ∧
    receive "oops" (.error "Expecting value") [] =
      .failed "JSONDecodeError" "Expecting value" :=
  ⟨(C2_receive_boundary "m" _ []).2.1 _ "unknownX" rfl rfl rfl rfl
      (by decide) rfl,
   (C2_receive_boundary "oops" (.error "Expecting value") []).2.2
      "Expecting value" rfl⟩

end Polyplug

namespace Polyplug

/-! ## Claim C1: render / re-parse round trip

`renderableN flag d` carves out the trees whose rendering the tokenizer
reads back unchanged, where `flag` records whether an element is the
pending `current_node` at the point the rendering starts (`true` after an
open tag, until the first nested container element closes).  The excluded
shapes each break the round trip in the source: fragments render to
nothing; empty text disappears; leading whitespace of text is eaten by
`match("<")`; a `<` inside text ends the text node early; adjacent text
nodes merge; a comment while an element is current is attached to that
element's parent; a `textarea` while an element is current aliases
`current_parent` to `current_node` and the element is dropped; `-->`
inside a comment or `</textarea>` inside a textarea value end the node
early; and non-canonical records (a `value` on a non-textarea, children
on a textarea) are not reproduced by `as_dict`. -/

/-- The tokenizer mode corresponding to "an element is the current
node". -/
def modeOf : Bool → Mode
  | true => .cur
  | false => .noCur

/-- A container element record: parsed via the open/close branches rather
than the raw-text `textarea` branch. -/
def isContainerN : NRec → Bool
  | .elem t _ _ _ => !(t = "textarea")
  | _ => false

/-- A text record. -/
def isTextN : NRec → Bool
  | .txt _ => true
  | _ => false

/-- The mode flag after one child's rendering is parsed: closing a
container element resets `current_node` to `None`; every other child
leaves the references unchanged. -/
def nextFlag (flag : Bool) (d : NRec) : Bool :=
  if isContainerN d then false else flag

/-- The mode flag after a sequence of children. -/
def flagAfter : Bool → NRecs → Bool
  | flag, .nil => flag
  | flag, .cons c cs => flagAfter (nextFlag flag c) cs

/-- Text the tokenizer reads back as one text node: non-empty, not
beginning with whitespace, and containing no `<`. -/
def txtOkB (s : String) : Bool :=
  match s.data with
  | [] => false
  | c :: cs => !pySpace c && !hasSub ['<'] (c :: cs)

/-- Whether the head of a sequence is anything but a text node. -/
def headNotTxt : NRecs → Bool
  | .cons (.txt _) _ => false
  | _ => true

mutual
/-- Trees whose rendering re-parses to the same tree when parsing starts
in mode `modeOf flag`; see the section comment for what each conjunct
excludes. -/
def renderableN : Bool → NRec → Bool
  | flag, .elem t a cs v =>
    if t = "textarea" then
      !flag && attrsOkB a &&
        (match cs, v with
         | .nil, some s => !hasSub "</textarea>".data s.data
         | _, _ => false)
    else
      nameOkB t && attrsOkB a && v.isNone && renderableKids true cs
  | _, .txt s => txtOkB s
  | flag, .comment s => !flag && !hasSub ['-', '-', '>'] s.data
  | _, .frag => false

/-- `renderableN` over a child sequence, threading the mode flag and
forbidding adjacent text nodes. -/
def renderableKids : Bool → NRecs → Bool
  | _, .nil => true
  | flag, .cons c cs =>
    renderableN flag c && (!isTextN c || headNotTxt cs) &&
      renderableKids (nextFlag flag c) cs
end

mutual
/-- Number of `while self.char` iterations `tokenize` spends on a
record's rendering. -/
def itCount : NRec → Nat
  | .elem t _ cs _ => if t = "textarea" then 1 else itCounts cs + 2
  | .txt _ => 1
  | .comment _ => 1
  | .frag => 0

/-- Iterations spent on a sequence of renderings. -/
def itCounts : NRecs → Nat
  | .nil => 0
  | .cons c cs => itCount c + itCounts cs
end

theorem bnot_true {b : Bool} (h : (!b) = true) : b = false := by
  cases b
  · rfl
  · simp at h

theorem ofList_toList : ∀ cs : NRecs, NRecs.ofList (NRecs.toList cs) = cs
  | .nil => rfl
  | .cons c cs => by
      rw [NRecs.toList, NRecs.ofList, ofList_toList cs]

theorem toList_canonRecs : ∀ cs : NRecs,
    NRecs.toList (canonRecs cs) = (NRecs.toList cs).map canonRec
  | .nil => rfl
  | .cons c cs => by
      rw [canonRecs, NRecs.toList, NRecs.toList, List.map_cons, toList_canonRecs cs]

mutual
/-- A renderable record is canonical: `as_dict` reproduces it. -/
theorem canon_fixed : ∀ (d : NRec) (flag : Bool),
    renderableN flag d = true → canonRec d = d
  | .elem t a cs v, flag, h => by
      by_cases ht : t = "textarea"
      · subst ht
        unfold renderableN at h
        simp only [reduceIte] at h
        rw [Bool.and_eq_true] at h
        cases cs with
        | cons c cs' => cases v <;> simp at h
        | nil =>
          cases v with
          | none => simp at h
          | some s => rfl
      · unfold renderableN at h
        rw [if_neg ht] at h
        rw [Bool.and_eq_true, Bool.and_eq_true, Bool.and_eq_true] at h
        obtain ⟨⟨⟨_, _⟩, hvnone⟩, hkids⟩ := h
        have hv : v = none := by
          cases v
          · rfl
          · simp [Option.isNone] at hvnone
        subst hv
        unfold canonRec
        rw [if_neg ht, if_neg ht, canon_fixeds cs true hkids]
  | .txt s, _, _ => rfl
  | .comment s, _, _ => rfl
  | .frag, _, _ => rfl

/-- `canon_fixed` over a child sequence. -/
theorem canon_fixeds : ∀ (cs : NRecs) (flag : Bool),
    renderableKids flag cs = true → canonRecs cs = cs
  | .nil, _, _ => rfl
  | .cons c cs, flag, h => by
      unfold renderableKids at h
      rw [Bool.and_eq_true, Bool.and_eq_true] at h
      obtain ⟨⟨hc, _⟩, hcs⟩ := h
      rw [canonRecs, canon_fixed c flag hc, canon_fixeds cs (nextFlag flag c) hcs]
end

mutual
/-- `as_dict` is idempotent on every record (rebuilding a node from a
serialized record and serializing again is stable). -/
theorem canon_idem : ∀ r : NRec, canonRec (canonRec r) = canonRec r
  | .elem t a cs v => by
      by_cases h : t = "textarea" <;>
        simp [canonRec, h, canon_idems cs]
  | .txt s => rfl
  | .comment s => rfl
  | .frag => rfl

/-- `canon_idem` over a sequence. -/
theorem canon_idems : ∀ rs : NRecs, canonRecs (canonRecs rs) = canonRecs rs
  | .nil => rfl
  | .cons c cs => by
      rw [canonRecs, canonRecs, canon_idem c, canon_idems cs]
end

end Polyplug

namespace Polyplug

/-- One `tokenize` iteration on readable text: `match("<")` fails on the
first character (not whitespace, not `<`), `get_text` consumes up to the
next `<` (or end of input), and the text node is attached to the current
node / parent. -/
theorem tokLoop_text (fuel : Nat) {c : Char} {cs : List Char}
    (hc : pySpace c = false) (hsub : hasSub ['<'] (c :: cs) = false)
    (rest : List Char) (hrest : rest = [] ∨ rest.head? = some '<') (st : TState) :
    tokLoop (fuel + 1) ((c :: cs) ++ rest) st
      = tokLoop fuel rest (attachTop (.txt (String.mk (c :: cs))) st) := by
  have hcne : c ≠ '<' := by
    intro he
    subst he
    unfold hasSub at hsub
    rw [Bool.or_eq_false_iff] at hsub
    have h1 := hsub.1
    simp [isPre] at h1
  rw [List.cons_append]
  simp only [tokLoop]
  rw [tmatch_cons_not_mem hc (by simp [hcne])]
  dsimp only
  rw [← List.cons_append]
  rcases hrest with rfl | hlt
  · rw [List.append_nil]
    unfold getText
    rw [splitUntil_no_sub ['<'] (c :: cs) hsub]
  · obtain ⟨rs, rfl⟩ : ∃ rs, rest = '<' :: rs := by
      cases rest with
      | nil => simp at hlt
      | cons r0 rs =>
        have : r0 = '<' := by simpa using hlt
        exact ⟨rs, by rw [this]⟩
    unfold getText
    rw [show (c :: cs) ++ '<' :: rs = (c :: cs) ++ ['<'] ++ rs by simp]
    rw [splitUntil_boundary ['<'] (by decide) (by decide) (c :: cs) rs hsub]
    rfl

/-- One `tokenize` iteration on a comment `<!--v-->` with no current
node: the comment scan stops at the first `-->`, consumes it, and the
comment node is attached to the current parent. -/
theorem tokLoop_comment (fuel : Nat) (v : List Char)
    (hv : hasSub ['-', '-', '>'] v = false)
    (rest : List Char) (top : Frame) (outer : List Frame) :
    tokLoop (fuel + 1) ('<' :: '!' :: '-' :: '-' :: (v ++ ['-', '-', '>'] ++ rest))
        ⟨top, outer, .noCur⟩
      = tokLoop fuel rest ⟨top.push (.comment (String.mk v)), outer, .noCur⟩ := by
  simp only [tokLoop]
  rw [tmatch_cons_mem (by decide) (by simp)]
  dsimp only
  rw [tmatch_cons_not_mem (by decide) (by decide)]
  dsimp only
  rw [tmatch_cons_not_mem (by decide) (by decide)]
  dsimp only
  rw [tmatch_cons_mem (by decide) (by simp)]
  dsimp only
  rw [texpect_cons (by decide) (by simp)]
  dsimp only
  rw [texpect_cons (by decide) (by simp)]
  dsimp only
  unfold scanComment
  rw [splitUntil_boundary ['-', '-', '>'] (by decide) (by decide) v rest hv]
  dsimp only
  rfl

/-- A renderable non-text record's rendering begins with `<`. -/
theorem outerHTML_head (d : NRec) (flag : Bool) (h : renderableN flag d = true)
    (hnt : isTextN d = false) (z : List Char) :
    (outerHTML d ++ z).head? = some '<' := by
  cases d with
  | elem t a cs v => rfl
  | txt s => simp [isTextN] at hnt
  | comment s => rfl
  | frag => simp [renderableN] at h

end Polyplug

namespace Polyplug

mutual
/-- Parsing the rendering of one renderable child, starting in mode
`modeOf flag`, consumes exactly `itCount d` loop iterations, attaches the
child's record to the innermost open frame, and leaves the mode described
by `nextFlag`. -/
theorem childStep : ∀ (d : NRec) (flag : Bool), renderableN flag d = true →
    ∀ (k : Nat) (rest : List Char) (top : Frame) (outer : List Frame),
      (isTextN d = true → rest = [] ∨ rest.head? = some '<') →
      tokLoop (itCount d + k) (outerHTML d ++ rest) ⟨top, outer, modeOf flag⟩
        = tokLoop k rest ⟨top.push d, outer, modeOf (nextFlag flag d)⟩
  | .elem t a cs v, flag, h, k, rest, top, outer, _ => by
      by_cases ht : t = "textarea"
      · subst ht
        unfold renderableN at h
        simp only [reduceIte] at h
        rw [Bool.and_eq_true, Bool.and_eq_true] at h
        obtain ⟨⟨hflag, hattrs⟩, hmatch⟩ := h
        have hf : flag = false := bnot_true hflag
        subst hf
        cases cs with
        | cons c cs' => cases v <;> simp at hmatch
        | nil =>
          cases v with
          | none => simp at hmatch
          | some s =>
            have hsub : hasSub "</textarea>".data s.data = false := bnot_true hmatch
            have hshape : outerHTML (.elem "textarea" a .nil (some s)) ++ rest
                = '<' :: ("textarea".data ++
                    (renderAttrs a ++ '>' :: (s.data ++ ("</textarea>".data ++ rest)))) := by
              simp only [outerHTML, reduceIte, Option.getD_some, List.cons_append,
                List.append_assoc, List.singleton_append, List.nil_append]
            rw [hshape]
            rw [show itCount (.elem "textarea" a .nil (some s)) + k = k + 1 from by
              simp only [itCount, reduceIte]; omega]
            rw [tokLoop_textarea k hattrs hsub rest ⟨top, outer, modeOf false⟩]
            rfl
      · unfold renderableN at h
        rw [if_neg ht] at h
        rw [Bool.and_eq_true, Bool.and_eq_true, Bool.and_eq_true] at h
        obtain ⟨⟨⟨hname, hattrs⟩, hvnone⟩, hkids⟩ := h
        have hv : v = none := by
          cases v
          · rfl
          · simp [Option.isNone] at hvnone
        subst hv
        have hshape : outerHTML (.elem t a cs none) ++ rest
            = '<' :: (t.data ++ (renderAttrs a ++ '>' ::
                (innerHTML cs ++ ('<' :: '/' :: (t.data ++ '>' :: rest))))) := by
          simp only [outerHTML, ht, reduceIte, List.cons_append, List.append_assoc,
            List.singleton_append, List.nil_append, if_false]
        rw [hshape]
        rw [show itCount (.elem t a cs none) + k = (itCounts cs + (1 + k)) + 1 from by
          simp only [itCount, ht, if_false]; omega]
        rw [tokLoop_open (itCounts cs + (1 + k)) hname ht hattrs _ ⟨top, outer, modeOf flag⟩]
        have hopen : openElement t a (descend ⟨top, outer, modeOf flag⟩)
            = ⟨⟨t, a, []⟩, top :: outer, modeOf true⟩ := by
          cases flag <;> rfl
        rw [hopen]
        rw [seqStep cs true hkids (1 + k) ('<' :: '/' :: (t.data ++ '>' :: rest))
          ⟨t, a, []⟩ (top :: outer) (Or.inr rfl)]
        dsimp only
        simp only [List.nil_append]
        rw [show (1 : Nat) + k = k + 1 from by omega]
        rw [tokLoop_close k hname rest]
        have hclose : closeStep t ⟨⟨t, a, NRecs.toList cs⟩, top :: outer,
              modeOf (flagAfter true cs)⟩
            = .ok ⟨top.push (Frame.toRec ⟨t, a, NRecs.toList cs⟩), outer, .noCur⟩ := by
          cases flagAfter true cs <;> simp [closeStep, modeOf]
        rw [hclose]
        dsimp only
        have hrec : Frame.toRec ⟨t, a, NRecs.toList cs⟩ = .elem t a cs none := by
          unfold Frame.toRec
          dsimp only
          rw [← toList_canonRecs, canon_fixeds cs true hkids, ofList_toList]
        rw [hrec]
        have hmode : modeOf (nextFlag flag (.elem t a cs none)) = Mode.noCur := by
          simp [nextFlag, isContainerN, ht, modeOf]
        rw [hmode]
  | .txt s, flag, h, k, rest, top, outer, htxt => by
      unfold renderableN at h
      unfold txtOkB at h
      rcases hd : s.data with _ | ⟨c, cs⟩
      · rw [hd] at h
        simp at h
      · rw [hd] at h
        dsimp only at h
        rw [Bool.and_eq_true] at h
        obtain ⟨hc, hsub⟩ := h
        have hc' : pySpace c = false := bnot_true hc
        have hsub' : hasSub ['<'] (c :: cs) = false := bnot_true hsub
        have hrest := htxt rfl
        rw [show itCount (.txt s) + k = k + 1 from by simp only [itCount]; omega]
        rw [show outerHTML (.txt s) ++ rest = (c :: cs) ++ rest from by
          rw [show outerHTML (.txt s) = s.data from rfl, hd]]
        rw [tokLoop_text k hc' hsub' rest hrest ⟨top, outer, modeOf flag⟩]
        rw [← hd, strEta]
        rfl
  | .comment s, flag, h, k, rest, top, outer, _ => by
      unfold renderableN at h
      rw [Bool.and_eq_true] at h
      obtain ⟨hflag, hsub⟩ := h
      have hf : flag = false := bnot_true hflag
      subst hf
      have hsub' : hasSub ['-', '-', '>'] s.data = false := bnot_true hsub
      rw [show itCount (.comment s) + k = k + 1 from by simp only [itCount]; omega]
      rw [show outerHTML (.comment s) ++ rest
        = '<' :: '!' :: '-' :: '-' :: (s.data ++ ['-', '-', '>'] ++ rest) from rfl]
      rw [show modeOf false = Mode.noCur from rfl]
      rw [tokLoop_comment k s.data hsub' rest top outer]
      rw [strEta]
      rfl
  | .frag, flag, h, k, rest, top, outer, _ => by
      simp [renderableN] at h

/-- Parsing the concatenated renderings of a renderable child sequence
attaches the children's records, in order, to the innermost open
frame. -/
theorem seqStep : ∀ (cs : NRecs) (flag : Bool), renderableKids flag cs = true →
    ∀ (k : Nat) (rest : List Char) (top : Frame) (outer : List Frame),
      (rest = [] ∨ rest.head? = some '<') →
      tokLoop (itCounts cs + k) (innerHTML cs ++ rest) ⟨top, outer, modeOf flag⟩
        = tokLoop k rest
            ⟨⟨top.tagName, top.attrs, top.children ++ NRecs.toList cs⟩, outer,
              modeOf (flagAfter flag cs)⟩
  | .nil, flag, _, k, rest, top, outer, _ => by
      simp only [itCounts, innerHTML, NRecs.toList, List.nil_append, List.append_nil,
        flagAfter, Nat.zero_add]
  | .cons c cs, flag, h, k, rest, top, outer, hrest => by
      unfold renderableKids at h
      rw [Bool.and_eq_true, Bool.and_eq_true] at h
      obtain ⟨⟨hc, hnt⟩, hcs⟩ := h
      have htext : isTextN c = true →
          innerHTML cs ++ rest = [] ∨ (innerHTML cs ++ rest).head? = some '<' := by
        intro hct
        cases cs with
        | nil =>
          rw [show innerHTML .nil ++ rest = rest from by
            simp only [innerHTML, List.nil_append]]
          exact hrest
        | cons c' cs' =>
          right
          rw [hct] at hnt
          simp only [Bool.not_true, Bool.false_or] at hnt
          have hc'nt : isTextN c' = false := by
            cases c' with
            | txt s => simp [headNotTxt] at hnt
            | elem t a cs v => rfl
            | comment s => rfl
            | frag => rfl
          have hc'r : renderableN (nextFlag flag c) c' = true := by
            unfold renderableKids at hcs
            rw [Bool.and_eq_true, Bool.and_eq_true] at hcs
            exact hcs.1.1
          rw [show innerHTML (.cons c' cs') = outerHTML c' ++ innerHTML cs' from rfl]
          rw [List.append_assoc]
          exact outerHTML_head c' _ hc'r hc'nt _
      rw [show itCounts (.cons c cs) + k = itCount c + (itCounts cs + k) from by
        simp only [itCounts]; omega]
      rw [show innerHTML (.cons c cs) ++ rest = outerHTML c ++ (innerHTML cs ++ rest) from by
        rw [show innerHTML (.cons c cs) = outerHTML c ++ innerHTML cs from rfl,
          List.append_assoc]]
      rw [childStep c flag hc (itCounts cs + k) (innerHTML cs ++ rest) top outer htext]
      rw [seqStep cs (nextFlag flag c) hcs k rest (top.push c) outer hrest]
      simp only [Frame.push, List.append_assoc, List.singleton_append, NRecs.toList,
        flagAfter]
end

end Polyplug

namespace Polyplug

mutual
/-- A renderable record's rendering is at least as long as the number of
loop iterations spent on it, so the entry fuel `length + 1` suffices. -/
theorem itCount_le : ∀ (d : NRec) (flag : Bool), renderableN flag d = true →
    itCount d ≤ (outerHTML d).length
  | .elem t a cs v, flag, h => by
      by_cases ht : t = "textarea"
      · subst ht
        simp only [itCount, reduceIte, outerHTML, List.length_cons]
        omega
      · unfold renderableN at h
        rw [if_neg ht] at h
        rw [Bool.and_eq_true, Bool.and_eq_true, Bool.and_eq_true] at h
        obtain ⟨⟨⟨hname, _⟩, _⟩, hkids⟩ := h
        have ih := itCounts_le cs true hkids
        have hn : 1 ≤ t.data.length := by
          have := nameOkB_data_ne hname
          cases hdd : t.data with
          | nil => exact absurd hdd this
          | cons x xs => simp
        simp only [itCount, ht, if_false, outerHTML, reduceIte, List.length_cons,
          List.length_append]
        omega
  | .txt s, flag, h => by
      unfold renderableN at h
      unfold txtOkB at h
      rcases hd : s.data with _ | ⟨c, cs⟩
      · rw [hd] at h
        simp at h
      · rw [show outerHTML (.txt s) = s.data from rfl, hd]
        simp only [itCount, List.length_cons]
        omega
  | .comment s, _, _ => by
      simp only [itCount, outerHTML, List.length_cons]
      omega
  | .frag, flag, h => by
      simp [renderableN] at h

/-- `itCount_le` over a child sequence. -/
theorem itCounts_le : ∀ (cs : NRecs) (flag : Bool), renderableKids flag cs = true →
    itCounts cs ≤ (innerHTML cs).length
  | .nil, _, _ => by
      simp [itCounts, innerHTML]
  | .cons c cs, flag, h => by
      unfold renderableKids at h
      rw [Bool.and_eq_true, Bool.and_eq_true] at h
      obtain ⟨⟨hc, _⟩, hcs⟩ := h
      have h1 := itCount_le c flag hc
      have h2 := itCounts_le cs (nextFlag flag c) hcs
      simp only [itCounts, innerHTML, List.length_append]
      omega
end

/-- Claim C1 counterexample: the claim as stated fails already for a tree
containing a Fragment child — the fragment renders to nothing, so
re-parsing the rendering loses it — and for the record round trip on a
record with a stray `value` key, which `as_dict` drops. -/
theorem C1_counterexample :
    tokenize (outerHTML (.elem "div" [] (.cons .frag .nil) none)) ⟨"root", [], []⟩
      = .ok [.elem "div" [] .nil none] ∧
    (.elem "div" [] .nil none : NRec) ≠ .elem "div" [] (.cons .frag .nil) none ∧
    canonRec (.elem "div" [] .nil (some "v")) = .elem "div" [] .nil none ∧
    (.elem "div" [] .nil none : NRec) ≠ .elem "div" [] .nil (some "v") :=
  ⟨by decide, by decide, by decide, by decide⟩

/-- Claim C1 (corrected): for every tree built from the four node kinds
that is *renderable* — no fragments; text nodes non-empty, not starting
with whitespace, containing no `<`, and not adjacent; comments without
`-->` and textareas (childless, with a value containing no `</textarea>`)
only where no element is the pending current node; container elements
with readable names, readable duplicate-free attributes and no stray
`value` — re-parsing the rendered markup with a fresh parent element
appends exactly the original tree to the parent's children; a renderable
record is a fixed point of `as_dict`; and `as_dict` is idempotent on
every record. -/
theorem C1_roundtrip (d : NRec) (h : renderableN false d = true) (p : Frame) :
    tokenize (outerHTML d) p = .ok (p.children ++ [d]) ∧
    canonRec d = d ∧
    ∀ r : NRec, canonRec (canonRec r) = canonRec r := by
  refine ⟨?_, canon_fixed d false h, canon_idem⟩
  unfold tokenize
  have hle := itCount_le d false h
  obtain ⟨k, hk⟩ : ∃ k, (outerHTML d).length + 1 = itCount d + (k + 1) :=
    ⟨(outerHTML d).length - itCount d, by omega⟩
  rw [hk]
  have hstep := childStep d false h (k + 1) [] p [] (fun _ => Or.inl rfl)
  rw [List.append_nil] at hstep
  rw [show (⟨p, [], Mode.noCur⟩ : TState) = ⟨p, [], modeOf false⟩ from rfl]
  rw [hstep]
  rfl

/-- Witness for claim C1: re-parsing the rendering of the concrete
renderable tree `<div id="x"><p>Hello</p><!--note--></div>` with a fresh
`root` parent reproduces exactly that tree. -/
theorem C1_witness :
    renderableN false (.elem "div" [("id", "x")]
        (.cons (.elem "p" [] (.cons (.txt "Hello") .nil) none)
          (.cons (.comment "note") .nil)) none) = true ∧
    tokenize (outerHTML (.elem "div" [("id", "x")]
        (.cons (.elem "p" [] (.cons (.txt "Hello") .nil) none)
          (.cons (.comment "note") .nil)) none)) ⟨"root", [], []⟩
      = .ok ([] ++ [.elem "div" [("id", "x")]
          (.cons (.elem "p" [] (.cons (.txt "Hello") .nil) none)
            (.cons (.comment "note") .nil)) none]) :=
  ⟨by decide,
    (C1_roundtrip (.elem "div" [("id", "x")]
        (.cons (.elem "p" [] (.cons (.txt "Hello") .nil) none)
          (.cons (.comment "note") .nil)) none) (by decide) ⟨"root", [], []⟩).1⟩

end Polyplug
